import Mathlib

/-!
A shallow embedding of the in-memory Pub/Sub broker fake (`pstest` package):
topics, subscriptions, publish, pull, acknowledge, modify-ack-deadline,
seek-by-time, and the background maintenance sweep, translated from the Go
source.  Machine integers are modeled as `Int`/`Nat`; `time.Time` and
`time.Duration` are modeled as `Int` nanoseconds; Go's zero `time.Time`
sentinel for "no ack deadline" is modeled as `Option`; Go maps are modeled as
association lists with Go's assign-in-place/append semantics; nil protobuf
pointers are modeled as `Option`; a nil-pointer dereference is modeled as the
`Outcome.nilPanic` result (in the running server such a panic crashes the
process, or leaves the global mutex locked forever, so no later call returns).
-/

namespace PSTest

/-- gRPC status codes used by the fake server. -/
inductive Code where
  | ok
  | canceled
  | unknown
  | invalidArgument
  | notFound
  | alreadyExists
  | unimplemented
  deriving DecidableEq, Repr

/-- A gRPC status: code plus message (the format verb arguments of
`status.Errorf` are folded into a fixed message text). -/
structure Status where
  code : Code
  msg : String
  deriving DecidableEq, Repr

/-- Result of a Go handler: a normal return, an error status, or a runtime
nil-pointer panic at the named site. -/
inductive Outcome (α : Type) where
  | ok (a : α)
  | err (st : Status)
  | nilPanic (site : String)
  deriving DecidableEq, Repr

def Outcome.map {α β : Type} (f : α → β) : Outcome α → Outcome β
  | .ok a => .ok (f a)
  | .err st => .err st
  | .nilPanic s => .nilPanic s

/- `time.Time` and `time.Duration` are both modeled as `Int` nanoseconds
(spelled `Int` rather than named abbreviations so that arithmetic automation
sees the type directly). -/

def nsPerSecond : Int := 1000000000

def nsPerMillisecond : Int := 1000000

/-- Go `time.Minute` in nanoseconds. -/
def minuteNs : Int := 60 * nsPerSecond

/-- Go `time.Hour` in nanoseconds. -/
def hourNs : Int := 3600 * nsPerSecond

/-- `secsToDur`: `time.Duration(secs) * time.Second`. -/
def secsToDur (secs : Int) : Int := secs * nsPerSecond

/-! ### Association lists standing in for Go maps -/

/-- Lookup in a Go map modeled as an association list (first match). -/
def lookupKey {κ β : Type} [DecidableEq κ] (k : κ) : List (κ × β) → Option β
  | [] => none
  | p :: rest => if p.1 = k then some p.2 else lookupKey k rest

/-- Go map assignment `m[k] = v`: replace in place if the key is present
(preserving position, like a Go map slot), otherwise append. -/
def insertKey {κ β : Type} [DecidableEq κ] (k : κ) (v : β) (l : List (κ × β)) :
    List (κ × β) :=
  if (lookupKey k l).isSome then
    l.map (fun p => if p.1 = k then (k, v) else p)
  else
    l ++ [(k, v)]

/-- Go map `delete(m, k)`. -/
def eraseKey {κ β : Type} [DecidableEq κ] (k : κ) (l : List (κ × β)) :
    List (κ × β) :=
  l.filter (fun p => decide (p.1 ≠ k))

/-- Update the value stored at key `k` in place (used for mutations through a
pointer held in a Go map slot). -/
def updateKey {κ β : Type} [DecidableEq κ] (k : κ) (f : β → β)
    (l : List (κ × β)) : List (κ × β) :=
  l.map (fun p => if p.1 = k then (k, f p.2) else p)

/-! ### Protocol buffer data, as far as the broker reads and writes it -/

/-- `pb.PubsubMessage`.  The source renders the assigned message id as the
string `"m<n>"` (`fmt.Sprintf("m%d", s.nextID)`), which is injective in the
counter value, so the id is modeled by the counter value itself. -/
structure PubsubMessage where
  data : List Nat
  attributes : List (String × String)
  orderingKey : String
  messageId : Nat
  publishTime : Option Int
  deriving DecidableEq, Repr

/-- `pb.ReceivedMessage`: the ack id plus a pointer to the published message
proto (`none` models a nil pointer). -/
structure ReceivedMessage where
  ackId : Nat
  message : Option PubsubMessage
  deriving DecidableEq, Repr

/-- `pb.Topic`, restricted to the fields the fake reads and writes.  The
message storage policy is an opaque proto pointer to the fake; it is modeled
as an `Option String` placeholder. -/
structure TopicProto where
  name : String
  labels : List (String × String)
  messageStoragePolicy : Option String
  deriving DecidableEq, Repr

/-- `pb.PushConfig`, restricted to the endpoint. -/
structure PushConfig where
  pushEndpoint : String
  deriving DecidableEq, Repr

/-- `pb.Subscription`, restricted to the fields the fake reads and writes.
The expiration policy, dead-letter policy, retry policy and filter are opaque
to the fake (only assigned whole), so they are modeled as placeholders. -/
structure SubscriptionProto where
  name : String
  topic : String
  ackDeadlineSeconds : Int
  messageRetentionDuration : Option Int
  pushConfig : Option PushConfig
  retainAckedMessages : Bool
  labels : List (String × String)
  expirationPolicy : Option String
  deadLetterPolicy : Option String
  retryPolicy : Option String
  filter : String
  deriving DecidableEq, Repr

/-! ### Server-side records -/

/-- A `Modack` audit-log entry recorded by `GServer.ModifyAckDeadline`. -/
structure Modack where
  ackId : Nat
  ackDeadline : Int
  receivedAt : Int
  deriving DecidableEq, Repr

/-- The server-side `Message` record: one per published message, owned by the
broker (`msgs`/`msgsByID`); the per-subscription entries point at its
`deliveries`/`acks` counters, modeled here by keying those counters in the
broker-level store. -/
structure Message where
  id : Nat
  data : List Nat
  attributes : List (String × String)
  orderingKey : String
  publishTime : Int
  deliveries : Nat
  acks : Nat
  modacks : List Modack
  deriving DecidableEq, Repr

/-- The per-subscription `message` record: `proto` is the `ReceivedMessage`
handed to consumers, `ackDeadline` is Go's zero-`time.Time` sentinel modeled
as an `Option`, and `streamIndex` is `-1` when no stream owns the message.
The `deliveries`/`acks` pointers of the source are represented by keying the
broker-level `Message` store with this entry's map key. -/
structure message where
  proto : ReceivedMessage
  publishTime : Int
  ackDeadline : Option Int
  streamIndex : Int
  deriving DecidableEq, Repr

/-- `message.outstanding`: a message is outstanding while its ack deadline is
set (`!m.ackDeadline.IsZero()`). -/
def message.outstanding (m : message) : Bool := m.ackDeadline.isSome

/-- `message.makeAvailable`: clear the ack deadline. -/
def message.makeAvailable (m : message) : message := { m with ackDeadline := none }

/-- The runtime `topic`: its proto and the names of the attached
subscriptions (the Go `map[string]*subscription` holds pointers into the
server's subscription registry). -/
structure Topic where
  proto : TopicProto
  subs : List String
  deriving DecidableEq, Repr

/-- The runtime `subscription`: its proto, the resolved ack timeout, its
pending-message map, and the name of the parent topic object (the Go struct
holds a `*topic`; the name identifies that object at creation time). -/
structure Subscription where
  proto : SubscriptionProto
  ackTimeout : Int
  msgs : List (Nat × message)
  topicName : String
  deriving DecidableEq, Repr

/-- The `GServer` broker state.  `msgsByID` is the store of `Message`
records; `msgs` lists their ids in publish order (the Go slice holds pointers
into the same records).  The stream list, wait group and mutex of the source
are concurrency plumbing with no sequential state. -/
structure GServer where
  topics : List (String × Topic)
  subs : List (String × Subscription)
  msgsByID : List (Nat × Message)
  msgs : List Nat
  nextID : Nat
  deriving DecidableEq, Repr

/-- The state `NewServer` starts from: empty registries, counter at zero. -/
def GServer.initial : GServer :=
  { topics := [], subs := [], msgsByID := [], msgs := [], nextID := 0 }

/-! ### Validation helpers -/

/-- The default value of the package variable `minAckDeadlineSecs`
(`ResetMinAckDeadline`). -/
def defaultMinAckDeadlineSecs : Int := 10

/-- `checkAckDeadline`: out-of-bounds ack deadlines are reported with code
`Unknown` ("PubSub service returns Unknown").  `minAckDeadlineSecs` is a
package variable, passed here as a parameter. -/
def checkAckDeadline (minAckDeadlineSecs : Int) (ads : Int) : Option Status :=
  if ads < minAckDeadlineSecs ∨ 600 < ads then
    some ⟨Code.unknown, "bad ack_deadline_seconds: " ++ toString ads⟩
  else
    none

def minMessageRetentionDuration : Int := 10 * minuteNs

def maxMessageRetentionDuration : Int := 168 * hourNs

def defaultMessageRetentionDuration : Int := maxMessageRetentionDuration

/-- `checkMRD`: a nil duration proto converts to 0 (`AsDuration` of nil). -/
def checkMRD (pmrd : Option Int) : Option Status :=
  let mrd := pmrd.getD 0
  if mrd < minMessageRetentionDuration ∨ maxMessageRetentionDuration < mrd then
    some ⟨Code.invalidArgument, "bad message_retention_duration"⟩
  else
    none

/-! ### Topic operations -/

/-- `GServer.CreateTopic` (reactors not installed, so `runReactor` is a
pass-through). -/
def GServer.CreateTopic (s : GServer) (t : TopicProto) :
    GServer × Outcome TopicProto :=
  match lookupKey t.name s.topics with
  | some _ => (s, .err ⟨Code.alreadyExists, "topic"⟩)
  | none =>
    let top : Topic := { proto := t, subs := [] }
    ({ s with topics := insertKey t.name top s.topics }, .ok t)

/-- `GServer.GetTopic`. -/
def GServer.GetTopic (s : GServer) (name : String) :
    GServer × Outcome TopicProto :=
  match lookupKey name s.topics with
  | some t => (s, .ok t.proto)
  | none => (s, .err ⟨Code.notFound, "topic"⟩)

/-- `pb.UpdateTopicRequest`: the replacement topic and the field-mask
paths. -/
structure UpdateTopicRequest where
  topic : TopicProto
  updateMaskPaths : List String
  deriving DecidableEq, Repr

/-- The field-mask loop of `GServer.UpdateTopic`: each path mutates the topic
proto in place as it is reached; an unknown path stops the loop with an
error, keeping the mutations already made. -/
def applyTopicMask (req : TopicProto) (paths : List String) (tp : TopicProto) :
    TopicProto × Option Status :=
  match paths with
  | [] => (tp, none)
  | p :: rest =>
    if p = "labels" then
      applyTopicMask req rest { tp with labels := req.labels }
    else if p = "message_storage_policy" then
      applyTopicMask req rest { tp with messageStoragePolicy := req.messageStoragePolicy }
    else
      (tp, some ⟨Code.invalidArgument, "unknown field name"⟩)

/-- `GServer.UpdateTopic`.  The proto mutations go through the registry
pointer, so they survive an error raised on a later mask path. -/
def GServer.UpdateTopic (s : GServer) (req : UpdateTopicRequest) :
    GServer × Outcome TopicProto :=
  match lookupKey req.topic.name s.topics with
  | none => (s, .err ⟨Code.notFound, "topic"⟩)
  | some t =>
    let (tp, e) := applyTopicMask req.topic req.updateMaskPaths t.proto
    let s' := { s with topics := insertKey req.topic.name { t with proto := tp } s.topics }
    match e with
    | some st => (s', .err st)
    | none => (s', .ok tp)

/-- `topic.stop`: mark every attached subscription's proto as pointing at the
deleted topic. -/
def topicStop (top : Topic) (subs : List (String × Subscription)) :
    List (String × Subscription) :=
  subs.map (fun p =>
    if p.1 ∈ top.subs then
      (p.1, { p.2 with proto := { p.2.proto with topic := "_deleted-topic_" } })
    else p)

/-- `GServer.DeleteTopic`. -/
def GServer.DeleteTopic (s : GServer) (name : String) : GServer × Outcome Unit :=
  match lookupKey name s.topics with
  | none => (s, .err ⟨Code.notFound, "topic"⟩)
  | some t =>
    ({ s with subs := topicStop t s.subs,
              topics := eraseKey name s.topics }, .ok ())

/-! ### Subscription creation -/

/-- `newSubscription`: resolve the ack timeout (defaulting 0 to 10s). -/
def newSubscription (ps : SubscriptionProto) : Subscription :=
  let at0 := secsToDur ps.ackDeadlineSeconds
  let at1 := if at0 = 0 then secsToDur 10 else at0
  { proto := ps, ackTimeout := at1, msgs := [], topicName := ps.topic }

/-- `GServer.CreateSubscription`: validation order and defaulting exactly as
in the source (missing name, duplicate name, missing topic, unknown topic,
ack-deadline bounds, retention default then bounds, push-config default). -/
def GServer.CreateSubscription (minAck : Int) (s : GServer)
    (ps : SubscriptionProto) : GServer × Outcome SubscriptionProto :=
  if ps.name = "" then
    (s, .err ⟨Code.invalidArgument, "missing name"⟩)
  else
    match lookupKey ps.name s.subs with
    | some _ => (s, .err ⟨Code.alreadyExists, "subscription"⟩)
    | none =>
      if ps.topic = "" then
        (s, .err ⟨Code.invalidArgument, "missing topic"⟩)
      else
        match lookupKey ps.topic s.topics with
        | none => (s, .err ⟨Code.notFound, "topic"⟩)
        | some top =>
          match checkAckDeadline minAck ps.ackDeadlineSeconds with
          | some st => (s, .err st)
          | none =>
            let ps :=
              if ps.messageRetentionDuration = none then
                { ps with messageRetentionDuration := some defaultMessageRetentionDuration }
              else ps
            match checkMRD ps.messageRetentionDuration with
            | some st => (s, .err st)
            | none =>
              let ps :=
                if ps.pushConfig = none then
                  { ps with pushConfig := some ⟨""⟩ }
                else ps
              let sub := newSubscription ps
              let top := { top with subs := top.subs ++ [ps.name] }
              ({ s with topics := insertKey ps.topic top s.topics,
                        subs := insertKey ps.name sub s.subs }, .ok ps)

/-- `findSubscription`: missing name is `InvalidArgument`, an unregistered
name is `NotFound`. -/
def GServer.findSubscription (s : GServer) (name : String) :
    Except Status Subscription :=
  if name = "" then
    .error ⟨Code.invalidArgument, "missing subscription"⟩
  else
    match lookupKey name s.subs with
    | none => .error ⟨Code.notFound, "subscription"⟩
    | some sub => .ok sub

/-- `pb.UpdateSubscriptionRequest` (`Subscription` is a proto pointer, so it
may be nil). -/
structure UpdateSubscriptionRequest where
  subscription : Option SubscriptionProto
  updateMaskPaths : List String
  deriving DecidableEq, Repr

/-- The field-mask loop of `GServer.UpdateSubscription`: each path validates
and mutates the subscription proto as it is reached; an invalid value or an
unknown path stops the loop with an error, keeping earlier mutations. -/
def applySubMask (minAck : Int) (req : SubscriptionProto) (paths : List String)
    (sp : SubscriptionProto) : SubscriptionProto × Option Status :=
  match paths with
  | [] => (sp, none)
  | p :: rest =>
    if p = "push_config" then
      applySubMask minAck req rest { sp with pushConfig := req.pushConfig }
    else if p = "ack_deadline_seconds" then
      match checkAckDeadline minAck req.ackDeadlineSeconds with
      | some st => (sp, some st)
      | none => applySubMask minAck req rest { sp with ackDeadlineSeconds := req.ackDeadlineSeconds }
    else if p = "retain_acked_messages" then
      applySubMask minAck req rest { sp with retainAckedMessages := req.retainAckedMessages }
    else if p = "message_retention_duration" then
      match checkMRD req.messageRetentionDuration with
      | some st => (sp, some st)
      | none => applySubMask minAck req rest { sp with messageRetentionDuration := req.messageRetentionDuration }
    else if p = "labels" then
      applySubMask minAck req rest { sp with labels := req.labels }
    else if p = "expiration_policy" then
      applySubMask minAck req rest { sp with expirationPolicy := req.expirationPolicy }
    else if p = "dead_letter_policy" then
      applySubMask minAck req rest { sp with deadLetterPolicy := req.deadLetterPolicy }
    else if p = "retry_policy" then
      applySubMask minAck req rest { sp with retryPolicy := req.retryPolicy }
    else if p = "filter" then
      applySubMask minAck req rest { sp with filter := req.filter }
    else
      (sp, some ⟨Code.invalidArgument, "unknown field name"⟩)

/-- `GServer.UpdateSubscription`.  As with topics, proto mutations made
before a failing mask path survive the error. -/
def GServer.UpdateSubscription (minAck : Int) (s : GServer)
    (req : UpdateSubscriptionRequest) : GServer × Outcome SubscriptionProto :=
  match req.subscription with
  | none => (s, .err ⟨Code.invalidArgument, "missing subscription"⟩)
  | some rs =>
    match s.findSubscription rs.name with
    | .error st => (s, .err st)
    | .ok sub =>
      let (sp, e) := applySubMask minAck rs req.updateMaskPaths sub.proto
      let s' := { s with subs := insertKey rs.name { sub with proto := sp } s.subs }
      match e with
      | some st => (s', .err st)
      | none => (s', .ok sp)

/-- `topic.deleteSub`: remove the subscription's name from its parent topic's
attachment set (a no-op on the registry when the parent topic object is no
longer registered). -/
def topicDeleteSub (s : GServer) (sub : Subscription) : GServer :=
  match lookupKey sub.topicName s.topics with
  | none => s
  | some t =>
    let t' := { t with subs := t.subs.filter (fun n => decide (n ≠ sub.proto.name)) }
    { s with topics := insertKey sub.topicName t' s.topics }

/-- `GServer.DeleteSubscription`. -/
def GServer.DeleteSubscription (s : GServer) (name : String) :
    GServer × Outcome Unit :=
  match s.findSubscription name with
  | .error st => (s, .err st)
  | .ok sub =>
    let s' := { s with subs := eraseKey name s.subs }
    (topicDeleteSub s' sub, .ok ())

/-- `GServer.DetachSubscription`. -/
def GServer.DetachSubscription (s : GServer) (name : String) :
    GServer × Outcome Unit :=
  match s.findSubscription name with
  | .error st => (s, .err st)
  | .ok sub => (topicDeleteSub s sub, .ok ())

/-! ### Publish -/

/-- `pb.PublishRequest` (incoming messages; their `messageId`/`publishTime`
fields are overwritten by the server). -/
structure PublishRequest where
  topic : String
  messages : List PubsubMessage
  deriving DecidableEq, Repr

/-- The pending entry `topic.publish` writes for a newly published message:
its `ReceivedMessage` proto points at the published message proto. -/
def fanoutEntry (pm : PubsubMessage) (pubTime : Int) : message :=
  { proto := { ackId := pm.messageId, message := some pm },
    publishTime := pubTime, ackDeadline := none, streamIndex := -1 }

/-- `topic.publish`: fan one published message out to every attached
subscription's pending map; every subscription's entry shares the published
proto and the `Message` record's counters. -/
def topicPublish (subNames : List String) (pm : PubsubMessage) (pubTime : Int)
    (subs : List (String × Subscription)) : List (String × Subscription) :=
  subs.map (fun p =>
    if p.1 ∈ subNames then
      (p.1, { p.2 with msgs := insertKey pm.messageId (fanoutEntry pm pubTime) p.2.msgs })
    else p)

/-- One iteration of the `Publish` message loop: assign the next id, stamp
the publish time, fan out, and append to the broker's message log. -/
def publishOne (subNames : List String) (now : Int) (st : GServer × List Nat)
    (pm0 : PubsubMessage) : GServer × List Nat :=
  let s := st.1
  let id := s.nextID
  let pm := { pm0 with messageId := id, publishTime := some now }
  let m : Message :=
    { id := id, data := pm.data, attributes := pm.attributes,
      orderingKey := pm.orderingKey, publishTime := now,
      deliveries := 0, acks := 0, modacks := [] }
  ({ s with nextID := s.nextID + 1,
            subs := topicPublish subNames pm now s.subs,
            msgs := s.msgs ++ [id],
            msgsByID := insertKey id m s.msgsByID },
   st.2 ++ [id])

/-- `GServer.Publish`: validate the topic, then run the message loop. -/
def GServer.Publish (s : GServer) (now : Int) (req : PublishRequest) :
    GServer × Outcome (List Nat) :=
  if req.topic = "" then
    (s, .err ⟨Code.invalidArgument, "missing topic"⟩)
  else
    match lookupKey req.topic s.topics with
    | none => (s, .err ⟨Code.notFound, "topic"⟩)
    | some top =>
      let (s', ids) := req.messages.foldl (publishOne top.subs now) (s, [])
      (s', .ok ids)

/-! ### Acknowledge -/

/-- Increment the shared `acks` counter of the `Message` record with the
given id (the per-subscription entry holds a pointer to it). -/
def bumpAcks (id : Nat) (store : List (Nat × Message)) : List (Nat × Message) :=
  updateKey id (fun m => { m with acks := m.acks + 1 }) store

/-- Increment the shared `deliveries` counter. -/
def bumpDeliveries (id : Nat) (store : List (Nat × Message)) :
    List (Nat × Message) :=
  updateKey id (fun m => { m with deliveries := m.deliveries + 1 }) store

/-- `subscription.ack`: if the id is still pending, increment the shared ack
counter and remove the pending entry; otherwise do nothing. -/
def subscriptionAck (p : List (Nat × Message) × Subscription) (id : Nat) :
    List (Nat × Message) × Subscription :=
  match lookupKey id p.2.msgs with
  | none => p
  | some _ => (bumpAcks id p.1, { p.2 with msgs := eraseKey id p.2.msgs })

/-- `pb.AcknowledgeRequest`. -/
structure AcknowledgeRequest where
  subscription : String
  ackIds : List Nat
  deriving DecidableEq, Repr

/-- `GServer.Acknowledge`. -/
def GServer.Acknowledge (s : GServer) (req : AcknowledgeRequest) :
    GServer × Outcome Unit :=
  match s.findSubscription req.subscription with
  | .error st => (s, .err st)
  | .ok sub =>
    let (store, sub') := req.ackIds.foldl subscriptionAck (s.msgsByID, sub)
    ({ s with msgsByID := store,
              subs := insertKey req.subscription sub' s.subs }, .ok ())

/-! ### ModifyAckDeadline -/

/-- `subscription.modifyAckDeadline`: unknown (already acked) ids are
ignored; deadline 0 nacks the message; a positive deadline extends the lease
from the subscription's clock. -/
def subscriptionModifyAckDeadline (now : Int) (sub : Subscription) (id : Nat)
    (d : Int) : Subscription :=
  match lookupKey id sub.msgs with
  | none => sub
  | some _ =>
    if d = 0 then
      { sub with msgs := updateKey id message.makeAvailable sub.msgs }
    else
      { sub with msgs := updateKey id (fun m => { m with ackDeadline := some (now + d) }) sub.msgs }

/-- The audit-log loop of `GServer.ModifyAckDeadline`:
`s.msgsByID[id].modacks = append(...)` has no nil check, so an id that was
never assigned by a `Publish` dereferences a nil `*Message` and panics.  The
appends made before the panic are kept (the returned store), matching the
partially executed loop. -/
def recordModacks (wallNow : Int) (ads : Int) (ids : List Nat)
    (store : List (Nat × Message)) : List (Nat × Message) × Bool :=
  match ids with
  | [] => (store, false)
  | id :: rest =>
    match lookupKey id store with
    | none => (store, true)
    | some m =>
      let store := insertKey id
        { m with modacks := m.modacks ++ [⟨id, ads, wallNow⟩] } store
      recordModacks wallNow ads rest store

/-- `pb.ModifyAckDeadlineRequest`. -/
structure ModifyAckDeadlineRequest where
  subscription : String
  ackIds : List Nat
  ackDeadlineSeconds : Int
  deriving DecidableEq, Repr

/-- `GServer.ModifyAckDeadline`.  `wallNow` is the `time.Now()` read for the
audit entries; `now` is the server clock (`timeNowFunc`) read by
`subscription.modifyAckDeadline`. -/
def GServer.ModifyAckDeadline (s : GServer) (now wallNow : Int)
    (req : ModifyAckDeadlineRequest) : GServer × Outcome Unit :=
  match s.findSubscription req.subscription with
  | .error st => (s, .err st)
  | .ok sub =>
    let (store, panicked) :=
      recordModacks wallNow req.ackDeadlineSeconds req.ackIds s.msgsByID
    if panicked then
      ({ s with msgsByID := store }, .nilPanic "ModifyAckDeadline: nil msgsByID entry")
    else
      let dur := secsToDur req.ackDeadlineSeconds
      let sub' := req.ackIds.foldl
        (fun sb id => subscriptionModifyAckDeadline now sb id dur) sub
      ({ s with msgsByID := store,
                subs := insertKey req.subscription sub' s.subs }, .ok ())

/-! ### Background maintenance -/

/-- The package variable `retentionDuration = 10 * time.Minute`.  Note: this
is a fixed constant, not the subscription's configured
`MessageRetentionDuration`. -/
def retentionDuration : Int := 10 * minuteNs

/-- The lease-demotion half of one `maintainMessages` iteration: mark the
message re-deliverable if its ack deadline has expired. -/
def demote (now : Int) (m : message) : message :=
  match m.ackDeadline with
  | some d => if now > d then m.makeAvailable else m
  | none => m

/-- The body of `subscription.maintainMessages` for the pending map, in entry
order: demote an expired lease, then read the publish time through
`m.proto.Message.PublishTime` — a nil `Message` proto (as left by `Seek`)
panics here — and drop messages not outstanding for longer than the fixed
retention duration. -/
def maintainLoop (now : Int) : List (Nat × message) →
    Outcome (List (Nat × message))
  | [] => .ok []
  | (id, m0) :: rest =>
    let m := demote now m0
    match m.proto.message with
    | none => .nilPanic "maintainMessages: m.proto.Message is nil"
    | some pm =>
      let pubTime := pm.publishTime.getD 0
      match maintainLoop now rest with
      | .nilPanic site => .nilPanic site
      | .err st => .err st
      | .ok rest' =>
        if !m.outstanding ∧ now - pubTime > retentionDuration then
          .ok rest'
        else
          .ok ((id, m) :: rest')

/-- `subscription.maintainMessages`. -/
def subscriptionMaintainMessages (now : Int) (sub : Subscription) :
    Outcome Subscription :=
  match maintainLoop now sub.msgs with
  | .nilPanic site => .nilPanic site
  | .err st => .err st
  | .ok msgs' => .ok { sub with msgs := msgs' }

/-! ### Pull -/

/-- The collection loop of `subscription.pull`: skip outstanding messages;
otherwise count a delivery, set the lease to `now + ackTimeout`, and collect
the proto, stopping once `max` messages are collected. -/
def pullLoop (now : Int) (ackTimeout : Int) (maxMsgs : Nat)
    (store : List (Nat × Message)) :
    List (Nat × message) →
      List (Nat × Message) × List (Nat × message) × List ReceivedMessage
  | [] => (store, [], [])
  | (id, m) :: rest =>
    if m.outstanding then
      let (st', rest', out) := pullLoop now ackTimeout maxMsgs store rest
      (st', (id, m) :: rest', out)
    else
      let store' := bumpDeliveries id store
      let m' := { m with ackDeadline := some (now + ackTimeout) }
      if maxMsgs ≤ 1 then
        (store', (id, m') :: rest, [m'.proto])
      else
        let (st', rest', out) := pullLoop now ackTimeout (maxMsgs - 1) store' rest
        (st', (id, m') :: rest', m'.proto :: out)

/-- `subscription.pull`: run maintenance (which can panic on a nil proto),
then collect up to `max` available messages. -/
def subscriptionPull (now : Int) (maxMsgs : Nat)
    (store : List (Nat × Message)) (sub : Subscription) :
    Outcome (List (Nat × Message) × Subscription × List ReceivedMessage) :=
  match subscriptionMaintainMessages now sub with
  | .nilPanic site => .nilPanic site
  | .err st => .err st
  | .ok sub' =>
    let (store', msgs', out) := pullLoop now sub'.ackTimeout maxMsgs store sub'.msgs
    .ok (store', { sub' with msgs := msgs' }, out)

/-- `pb.PullRequest`. -/
structure PullRequest where
  subscription : String
  maxMessages : Int
  returnImmediately : Bool
  deriving DecidableEq, Repr

/-- `GServer.Pull`: reject a negative max, default 0 to 1000, pull once; on
an empty result without `ReturnImmediately`, wait 500ms and retry exactly
once (in this sequential model no other activity intervenes during the
wait). -/
def GServer.Pull (s : GServer) (now : Int) (req : PullRequest) :
    GServer × Outcome (List ReceivedMessage) :=
  match s.findSubscription req.subscription with
  | .error st => (s, .err st)
  | .ok sub =>
    if req.maxMessages < 0 then
      (s, .err ⟨Code.invalidArgument, "MaxMessages cannot be negative"⟩)
    else
      let maxN : Nat := if req.maxMessages = 0 then 1000 else req.maxMessages.toNat
      match subscriptionPull now maxN s.msgsByID sub with
      | .nilPanic site => (s, .nilPanic site)
      | .err st => (s, .err st)
      | .ok (store, sub', out) =>
        let s1 := { s with msgsByID := store,
                           subs := insertKey req.subscription sub' s.subs }
        if out.isEmpty ∧ !req.returnImmediately then
          let retryNow := now + 500 * nsPerMillisecond
          match subscriptionPull retryNow maxN s1.msgsByID sub' with
          | .nilPanic site => (s1, .nilPanic site)
          | .err st => (s1, .err st)
          | .ok (store2, sub2, out2) =>
            ({ s1 with msgsByID := store2,
                       subs := insertKey req.subscription sub2 s1.subs }, .ok out2)
        else
          (s1, .ok out)

/-! ### Seek -/

/-- `pb.SeekRequest.Target`: a time target or a snapshot target. -/
inductive SeekTarget where
  | time (t : Int)
  | snapshot (name : String)
  deriving DecidableEq, Repr

/-- `pb.SeekRequest`. -/
structure SeekRequest where
  subscription : String
  target : Option SeekTarget
  deriving DecidableEq, Repr

/-- The pending entry `Seek` writes for a reinserted historical message: a
fresh `Available` entry whose `ReceivedMessage` proto has a nil `Message`
pointer ("This was not preserved!"). -/
def freshSeekEntry (mid : Nat) (pubTime : Int) : message :=
  { proto := { ackId := mid, message := none },
    publishTime := pubTime, ackDeadline := none, streamIndex := -1 }

/-- One iteration of the reinsertion loop of `GServer.Seek`. -/
def seekStep (target : Int) (store : List (Nat × Message))
    (sb : Subscription) (mid : Nat) : Subscription :=
  match lookupKey mid store with
  | none => sb
  | some m =>
    if m.publishTime < target then sb
    else
      { sb with msgs := insertKey mid (freshSeekEntry mid m.publishTime) sb.msgs }

/-- The reinsertion loop of `GServer.Seek`: every historical message
published at or after the target is written into the subscription's pending
map as a fresh `Available` entry. -/
def seekReinsert (target : Int) (store : List (Nat × Message))
    (order : List Nat) (sub : Subscription) : Subscription :=
  order.foldl (seekStep target store) sub

/-- `GServer.Seek`: only time targets are handled; pending messages
published before the target are dropped and counted as acked; historical
messages at or after the target are reinserted. -/
def GServer.Seek (s : GServer) (req : SeekRequest) : GServer × Outcome Unit :=
  match req.target with
  | none => (s, .err ⟨Code.invalidArgument, "missing Seek target type"⟩)
  | some (.snapshot _) => (s, .err ⟨Code.unimplemented, "unhandled Seek target type"⟩)
  | some (.time target) =>
    match s.findSubscription req.subscription with
    | .error st => (s, .err st)
    | .ok sub =>
      let dropped := sub.msgs.filter (fun p => decide (p.2.publishTime < target))
      let kept := sub.msgs.filter (fun p => !decide (p.2.publishTime < target))
      let store := dropped.foldl (fun st p => bumpAcks p.1 st) s.msgsByID
      let sub' := seekReinsert target store s.msgs { sub with msgs := kept }
      ({ s with msgsByID := store,
                subs := insertKey req.subscription sub' s.subs }, .ok ())

/-! ### Background delivery tick and the streaming inbound half -/

/-- One tick of `subscription.deliver` as observable without open streams:
maintenance runs; `tryDeliverMessage` over an empty stream list delivers
nothing and breaks the loop at the first available message. -/
def GServer.deliverTick (s : GServer) (now : Int) (name : String) :
    GServer × Outcome Unit :=
  match lookupKey name s.subs with
  | none => (s, .ok ())
  | some sub =>
    match subscriptionMaintainMessages now sub with
    | .nilPanic site => (s, .nilPanic site)
    | .err st => (s, .err st)
    | .ok sub' =>
      ({ s with subs := insertKey name sub' s.subs }, .ok ())

/-- `subscription.handleStreamingPullRequest`: apply the acknowledgement and
deadline-modification lists from a streaming-pull request against the owning
subscription (`ModifyDeadlineAckIds` is zipped with `ModifyDeadlineSeconds`;
the per-stream deadline override touches only stream state). -/
def GServer.handleStreamingPullRequest (s : GServer) (now : Int)
    (name : String) (ackIds : List Nat) (modIds : List (Nat × Int)) : GServer :=
  match lookupKey name s.subs with
  | none => s
  | some sub =>
    let (store, sub') := ackIds.foldl subscriptionAck (s.msgsByID, sub)
    let sub'' := modIds.foldl
      (fun sb p => subscriptionModifyAckDeadline now sb p.1 (secsToDur p.2)) sub'
    { s with msgsByID := store, subs := insertKey name sub'' s.subs }

/-! ### Operation traces

A trace of the state-mutating RPCs of the broker (the read-only List/Get
operations touch no state and are omitted).  A nil-pointer panic terminates
the trace: the panic either crashes the process or, because the panicking
paths hold the broker mutex without a deferred unlock, deadlocks every later
call — in both cases no later call returns. -/

/-- One state-mutating broker operation together with its request and the
clock reading(s) the server makes while handling it. -/
inductive Op where
  | createTopic (t : TopicProto)
  | updateTopic (req : UpdateTopicRequest)
  | deleteTopic (name : String)
  | createSubscription (minAck : Int) (ps : SubscriptionProto)
  | updateSubscription (minAck : Int) (req : UpdateSubscriptionRequest)
  | deleteSubscription (name : String)
  | detachSubscription (name : String)
  | publish (now : Int) (req : PublishRequest)
  | acknowledge (req : AcknowledgeRequest)
  | modifyAckDeadline (now wallNow : Int) (req : ModifyAckDeadlineRequest)
  | pull (now : Int) (req : PullRequest)
  | seek (req : SeekRequest)
  | deliverTick (now : Int) (name : String)
  | streamRequest (now : Int) (name : String) (ackIds : List Nat)
      (modIds : List (Nat × Int))
  deriving DecidableEq, Repr

/-- The visible payload of an operation's response. -/
inductive StepOut where
  | unit
  | ids (l : List Nat)
  | msgs (ms : List ReceivedMessage)
  deriving DecidableEq, Repr

/-- Execute one operation against the broker state. -/
def step (s : GServer) : Op → GServer × Outcome StepOut
  | .createTopic t =>
    let r := s.CreateTopic t
    (r.1, r.2.map (fun _ => .unit))
  | .updateTopic req =>
    let r := s.UpdateTopic req
    (r.1, r.2.map (fun _ => .unit))
  | .deleteTopic name =>
    let r := s.DeleteTopic name
    (r.1, r.2.map (fun _ => .unit))
  | .createSubscription minAck ps =>
    let r := GServer.CreateSubscription minAck s ps
    (r.1, r.2.map (fun _ => .unit))
  | .updateSubscription minAck req =>
    let r := GServer.UpdateSubscription minAck s req
    (r.1, r.2.map (fun _ => .unit))
  | .deleteSubscription name =>
    let r := s.DeleteSubscription name
    (r.1, r.2.map (fun _ => .unit))
  | .detachSubscription name =>
    let r := s.DetachSubscription name
    (r.1, r.2.map (fun _ => .unit))
  | .publish now req =>
    let r := s.Publish now req
    (r.1, r.2.map StepOut.ids)
  | .acknowledge req =>
    let r := s.Acknowledge req
    (r.1, r.2.map (fun _ => .unit))
  | .modifyAckDeadline now wallNow req =>
    let r := s.ModifyAckDeadline now wallNow req
    (r.1, r.2.map (fun _ => .unit))
  | .pull now req =>
    let r := s.Pull now req
    (r.1, r.2.map StepOut.msgs)
  | .seek req =>
    let r := s.Seek req
    (r.1, r.2.map (fun _ => .unit))
  | .deliverTick now name =>
    let r := s.deliverTick now name
    (r.1, r.2.map (fun _ => .unit))
  | .streamRequest now name ackIds modIds =>
    (s.handleStreamingPullRequest now name ackIds modIds, .ok .unit)

/-- Run a trace to its final state, stopping at a panic. -/
def runState (s : GServer) : List Op → GServer
  | [] => s
  | op :: rest =>
    let r := step s op
    match r.2 with
    | .nilPanic _ => r.1
    | _ => runState r.1 rest

/-- The messages a `Pull` operation returned to its caller. -/
def stepPulled : Op → Outcome StepOut → List ReceivedMessage
  | .pull _ _, .ok (.msgs ms) => ms
  | _, _ => []

/-- Run a trace, recording each completed operation together with the
messages it returned to a pulling consumer; a panic ends the run. -/
def runPulls (s : GServer) : List Op → List (Op × List ReceivedMessage)
  | [] => []
  | op :: rest =>
    let r := step s op
    match r.2 with
    | .nilPanic _ => []
    | o => (op, stepPulled op o) :: runPulls r.1 rest

/-- The id list a successful `Publish` returned. -/
def stepPublished : Op → Outcome StepOut → List (List Nat)
  | .publish _ _, .ok (.ids l) => [l]
  | _, _ => []

/-- Run a trace, recording the id list of every successful `Publish`, in
order; a panic ends the run. -/
def runPublished (s : GServer) : List Op → List (List Nat)
  | [] => []
  | op :: rest =>
    let r := step s op
    match r.2 with
    | .nilPanic _ => []
    | o => stepPublished op o ++ runPublished r.1 rest

/-! ### Concrete scenario states

Small reachable states used by the concrete counterexamples and witnesses
below: one topic `"t"`, one subscription `"s"` on it with default settings
(ack deadline 10s; retention left unset so creation defaults it to the
maximum), and a single message published at server time 0. -/

def topicT : TopicProto := { name := "t", labels := [], messageStoragePolicy := none }

def subS : SubscriptionProto :=
  { name := "s", topic := "t", ackDeadlineSeconds := 10,
    messageRetentionDuration := none, pushConfig := none,
    retainAckedMessages := false, labels := [], expirationPolicy := none,
    deadLetterPolicy := none, retryPolicy := none, filter := "" }

def msgHello : PubsubMessage :=
  { data := [104, 105], attributes := [], orderingKey := "",
    messageId := 0, publishTime := none }

/-- State with the topic created. -/
def stTopic : GServer := (GServer.initial.CreateTopic topicT).1

/-- State with topic and subscription created (in that order). -/
def stTopicSub : GServer :=
  (stTopic.CreateSubscription defaultMinAckDeadlineSecs subS).1

/-- State with one message published (id 0, publish time 0) into the
subscription. -/
def stPublished : GServer :=
  (stTopicSub.Publish 0 { topic := "t", messages := [msgHello] }).1

/-- State where the message was published while no subscription existed: the
message is in the broker's store but pending nowhere. -/
def stStoreOnly : GServer :=
  ((stTopic.Publish 0 { topic := "t", messages := [msgHello] }).1.CreateSubscription
    defaultMinAckDeadlineSecs subS).1

/-! ### Characterizations and invariants used by the theorems -/

/-- The publish time `maintainMessages` reads through the proto
(`m.proto.Message.PublishTime.AsTime()`); 0 stands for the epoch returned by
`AsTime` on a nil timestamp.  Reading it at all requires `m.proto.message` to
be non-nil. -/
def pubTimeOf (m : message) : Int :=
  match m.proto.message with
  | none => 0
  | some pm => pm.publishTime.getD 0

/-- What one maintenance sweep leaves of a pending map (when no entry has a
nil proto): demote expired leases, then keep exactly the entries that are
outstanding or no older than the fixed package `retentionDuration`. -/
def sweepSpec (now : Int) (l : List (Nat × message)) : List (Nat × message) :=
  (l.map (fun p => (p.1, demote now p.2))).filter
    (fun p => p.2.outstanding || decide (now - pubTimeOf p.2 ≤ retentionDuration))

/-- Every pending entry of every subscription carries its own map key as its
`AckId` (true of entries made by both `topic.publish` and `Seek`). -/
def entryAckKey (s : GServer) : Prop :=
  ∀ q ∈ s.subs, ∀ p ∈ q.2.msgs, p.2.proto.ackId = p.1

/-- Every id the broker tracks is below the id counter. -/
def keyBound (s : GServer) : Prop :=
  (∀ q ∈ s.msgsByID, q.1 < s.nextID) ∧ (∀ i ∈ s.msgs, i < s.nextID) ∧
    (∀ q ∈ s.subs, ∀ p ∈ q.2.msgs, p.1 < s.nextID)

/-- Message `id` is dead for subscription `name`: any pending entry it still
has under that id carries a nil proto `Message` (and therefore can never be
returned by a `pull`, whose preceding maintenance sweep panics on it). -/
def deadIn (s : GServer) (name : String) (id : Nat) : Prop :=
  ∀ q ∈ s.subs, q.1 = name → ∀ p ∈ q.2.msgs, p.1 = id → p.2.proto.message = none

/-- The pending entries `Seek` drops: published before the target. -/
def seekDropped (T : Int) (sub : Subscription) : List (Nat × message) :=
  sub.msgs.filter (fun p => decide (p.2.publishTime < T))

/-- The pending entries `Seek` keeps from the old pending set. -/
def seekKept (T : Int) (sub : Subscription) : List (Nat × message) :=
  sub.msgs.filter (fun p => !decide (p.2.publishTime < T))

/-- The broker store after `Seek` has counted each dropped entry as acked. -/
def seekStore (s : GServer) (T : Int) (sub : Subscription) :
    List (Nat × Message) :=
  (seekDropped T sub).foldl (fun st p => bumpAcks p.1 st) s.msgsByID

/-- The subscription `Seek` leaves behind: kept entries plus the reinserted
historical ones. -/
def seekNewSub (s : GServer) (T : Int) (sub : Subscription) : Subscription :=
  seekReinsert T (seekStore s T sub) s.msgs { sub with msgs := seekKept T sub }

/-- The broker state a successful time-`Seek` leaves behind. -/
def seekResultState (s : GServer) (name : String) (T : Int)
    (sub : Subscription) : GServer :=
  { s with msgsByID := seekStore s T sub,
           subs := insertKey name (seekNewSub s T sub) s.subs }

/-! ### Concrete requests and states for counterexamples and witnesses -/

/-- The subscription object registered in `stPublished`. -/
def stPublishedSub : Subscription :=
  (lookupKey "s" stPublished.subs).getD (newSubscription subS)

/-- An update of topic `"t"` that sets labels and then hits an unknown mask
path. -/
def updTopicReq : UpdateTopicRequest :=
  { topic := { name := "t", labels := [("k", "v")], messageStoragePolicy := none },
    updateMaskPaths := ["labels", "bogus"] }

/-- `stPublished` after a Seek to time 0: the pending entry for message 0 has
been overwritten with a fresh entry whose proto `Message` is nil. -/
def stSeeked : GServer :=
  (stPublished.Seek { subscription := "s", target := some (.time 0) }).1

/-- Entry-origin relation between the state before and after one broker
operation: every stored `Message` record either keeps a pre-existing id or
got a fresh id from the counter; the publish-order log likewise; and every
pending entry of every subscription either (a) is a freshly published entry
(its key is its `AckId` and comes from the counter), (b) is a `Seek`
reinsertion (its key is its `AckId`, its proto `Message` is nil, and its id
was already stored), or (c) traces by key and proto to a pending entry that
a subscription of the same name already had. -/
def stepOrigin (s s' : GServer) : Prop :=
  (∀ q ∈ s'.msgsByID, (∃ q0 ∈ s.msgsByID, q.1 = q0.1) ∨
    (s.nextID ≤ q.1 ∧ q.1 < s'.nextID)) ∧
  (∀ i ∈ s'.msgs, i ∈ s.msgs ∨ (s.nextID ≤ i ∧ i < s'.nextID)) ∧
  (∀ q ∈ s'.subs, ∀ p ∈ q.2.msgs,
    (p.2.proto.ackId = p.1 ∧ s.nextID ≤ p.1 ∧ p.1 < s'.nextID) ∨
    (p.2.proto.ackId = p.1 ∧ p.2.proto.message = none ∧
      ∃ mm ∈ s.msgsByID, mm.1 = p.1) ∨
    (∃ q0 ∈ s.subs, q0.1 = q.1 ∧ ∃ r ∈ q0.2.msgs, p.1 = r.1 ∧ p.2.proto = r.2.proto))

/-- A second incoming message for the C9 scenario. -/
def msgBye : PubsubMessage :=
  { data := [106], attributes := [], orderingKey := "",
    messageId := 0, publishTime := none }

/-- C9 scenario: publish two messages into topic `"t"`. -/
def c9PubReq : PublishRequest := { topic := "t", messages := [msgHello, msgBye] }

/-- C9 scenario: the pull request used for both deliveries. -/
def c9PullReq : PullRequest :=
  { subscription := "s", maxMessages := 10, returnImmediately := true }

/-- C9 scenario: acknowledge message 0 on `"s"`. -/
def c9AckReq : AcknowledgeRequest := { subscription := "s", ackIds := [0] }

/-- C9 scenario, phase one: create the topic and subscription, publish two
messages at time 0, and pull both at time 1. -/
def c9Ops1 : List Op :=
  [.createTopic topicT, .createSubscription defaultMinAckDeadlineSecs subS,
   .publish 0 c9PubReq, .pull 1 c9PullReq]

/-- C9 scenario, phase two, run after the Acknowledge of message 0: nack
message 1 so it becomes redeliverable, then pull again at time 3. -/
def c9Ops2 : List Op :=
  [.modifyAckDeadline 2 2 { subscription := "s", ackIds := [1], ackDeadlineSeconds := 0 },
   .pull 3 c9PullReq]

/-- The state after phase one and the Acknowledge of message 0. -/
def c9Acked : GServer :=
  (step (runState GServer.initial c9Ops1) (.acknowledge c9AckReq)).1

/-! ## Lemmas about the association-list map operations -/

section AssocLemmas

variable {κ β : Type} [DecidableEq κ] {k k' : κ} {v : β} {l : List (κ × β)}
variable {p q : κ × β} {f : β → β}

@[simp]
theorem lookupKey_nil : lookupKey k ([] : List (κ × β)) = none := rfl

@[simp]
theorem lookupKey_cons {a : κ} {b : β} {tl : List (κ × β)} :
    lookupKey k ((a, b) :: tl) = if a = k then some b else lookupKey k tl := rfl

theorem lookupKey_mem (h : lookupKey k l = some v) : (k, v) ∈ l := by
  induction l with
  | nil => simp at h
  | cons hd tl ih =>
    obtain ⟨a, b⟩ := hd
    by_cases hk : a = k
    · subst hk
      simp at h
      subst h
      exact List.mem_cons_self _ _
    · simp [hk] at h
      exact List.mem_cons_of_mem _ (ih h)

theorem lookupKey_eq_none_iff : lookupKey k l = none ↔ ∀ p ∈ l, p.1 ≠ k := by
  induction l with
  | nil => simp
  | cons hd tl ih =>
    obtain ⟨a, b⟩ := hd
    by_cases hk : a = k
    · subst hk
      simp
    · simp [hk, ih]

theorem lookupKey_isSome_of_mem (h : p ∈ l) (hk : p.1 = k) :
    (lookupKey k l).isSome := by
  cases hlk : lookupKey k l with
  | some w => rfl
  | none => exact absurd hk (lookupKey_eq_none_iff.mp hlk p h)

theorem lookupKey_eq_none_of_not_isSome (hs : ¬(lookupKey k l).isSome) :
    lookupKey k l = none := by
  cases hlk : lookupKey k l with
  | none => rfl
  | some w => rw [hlk] at hs; simp at hs

theorem mem_insertKey (h : p ∈ insertKey k v l) :
    p = (k, v) ∨ (p ∈ l ∧ p.1 ≠ k) := by
  unfold insertKey at h
  split at h
  · rcases List.mem_map.mp h with ⟨q, hq, hfq⟩
    by_cases hk : q.1 = k
    · rw [if_pos hk] at hfq
      exact Or.inl hfq.symm
    · rw [if_neg hk] at hfq
      exact Or.inr ⟨hfq ▸ hq, hfq ▸ hk⟩
  · rename_i hs
    rcases List.mem_append.mp h with hmem | hmem
    · exact Or.inr ⟨hmem,
        lookupKey_eq_none_iff.mp (lookupKey_eq_none_of_not_isSome (by simpa using hs)) p hmem⟩
    · simp at hmem
      exact Or.inl hmem

theorem self_mem_insertKey : (k, v) ∈ insertKey k v l := by
  unfold insertKey
  split
  · rename_i hs
    cases hlk : lookupKey k l with
    | none => rw [hlk] at hs; simp at hs
    | some w =>
      refine List.mem_map.mpr ⟨(k, w), lookupKey_mem hlk, ?_⟩
      simp
  · exact List.mem_append.mpr (Or.inr (List.mem_singleton.mpr rfl))

theorem mem_insertKey_of_ne (h : p ∈ l) (hne : p.1 ≠ k) :
    p ∈ insertKey k v l := by
  unfold insertKey
  split
  · exact List.mem_map.mpr ⟨p, h, by rw [if_neg hne]⟩
  · exact List.mem_append.mpr (Or.inl h)

theorem lookupKey_map_assign (hsome : (lookupKey k l).isSome) :
    lookupKey k (l.map (fun p => if p.1 = k then (k, v) else p)) = some v := by
  induction l with
  | nil => simp at hsome
  | cons hd tl ih =>
    obtain ⟨a, b⟩ := hd
    by_cases hk : a = k
    · subst hk
      simp
    · simp [hk] at hsome ⊢
      exact ih hsome

theorem lookupKey_append_self (hnone : lookupKey k l = none) :
    lookupKey k (l ++ [(k, v)]) = some v := by
  induction l with
  | nil => simp
  | cons hd tl ih =>
    obtain ⟨a, b⟩ := hd
    by_cases hk : a = k
    · rw [lookupKey_eq_none_iff] at hnone
      exact absurd hk (hnone (a, b) (List.mem_cons_self _ _))
    · simp [hk] at hnone ⊢
      exact ih hnone

theorem lookupKey_insertKey_self : lookupKey k (insertKey k v l) = some v := by
  unfold insertKey
  split
  · rename_i hs
    exact lookupKey_map_assign hs
  · rename_i hs
    exact lookupKey_append_self (lookupKey_eq_none_of_not_isSome (by simpa using hs))

theorem lookupKey_map_assign_ne (h : k' ≠ k) :
    lookupKey k' (l.map (fun p => if p.1 = k then (k, v) else p)) = lookupKey k' l := by
  induction l with
  | nil => rfl
  | cons hd tl ih =>
    obtain ⟨a, b⟩ := hd
    by_cases hk : a = k
    · subst hk
      simp [Ne.symm h]
      exact ih
    · simp only [List.map_cons, if_neg hk]
      by_cases hk' : a = k'
      · simp [hk']
      · simp [hk']
        exact ih

theorem lookupKey_append_ne (h : k' ≠ k) :
    lookupKey k' (l ++ [(k, v)]) = lookupKey k' l := by
  induction l with
  | nil => simp [Ne.symm h]
  | cons hd tl ih =>
    obtain ⟨a, b⟩ := hd
    by_cases hk' : a = k'
    · simp [hk']
    · simp [hk']
      exact ih

theorem lookupKey_insertKey_ne (h : k' ≠ k) :
    lookupKey k' (insertKey k v l) = lookupKey k' l := by
  unfold insertKey
  split
  · exact lookupKey_map_assign_ne h
  · exact lookupKey_append_ne h

theorem mem_eraseKey_iff : p ∈ eraseKey k l ↔ p ∈ l ∧ p.1 ≠ k := by
  unfold eraseKey
  simp [List.mem_filter]

theorem mem_updateKey (h : p ∈ updateKey k f l) :
    (∃ q ∈ l, q.1 = k ∧ p = (k, f q.2)) ∨ (p ∈ l ∧ p.1 ≠ k) := by
  unfold updateKey at h
  rcases List.mem_map.mp h with ⟨q, hq, hfq⟩
  by_cases hk : q.1 = k
  · rw [if_pos hk] at hfq
    exact Or.inl ⟨q, hq, hk, hfq.symm⟩
  · rw [if_neg hk] at hfq
    exact Or.inr ⟨hfq ▸ hq, hfq ▸ hk⟩

theorem mem_updateKey_of_ne (h : p ∈ l) (hne : p.1 ≠ k) :
    p ∈ updateKey k f l := by
  unfold updateKey
  exact List.mem_map.mpr ⟨p, h, by rw [if_neg hne]⟩

theorem lookupKey_updateKey_self :
    lookupKey k (updateKey k f l) = (lookupKey k l).map f := by
  unfold updateKey
  induction l with
  | nil => rfl
  | cons hd tl ih =>
    obtain ⟨a, b⟩ := hd
    by_cases hk : a = k
    · subst hk
      simp
    · simp [hk]
      exact ih

theorem lookupKey_updateKey_ne (h : k' ≠ k) :
    lookupKey k' (updateKey k f l) = lookupKey k' l := by
  unfold updateKey
  induction l with
  | nil => rfl
  | cons hd tl ih =>
    obtain ⟨a, b⟩ := hd
    by_cases hk : a = k
    · subst hk
      simp [Ne.symm h]
      exact ih
    · simp only [List.map_cons, if_neg hk]
      by_cases hk' : a = k'
      · simp [hk']
      · simp [hk']
        exact ih

end AssocLemmas

/-! ## Helper lemmas about the broker operations -/

theorem findSubscription_ok {s : GServer} {name : String} {sub : Subscription}
    (hname : name ≠ "") (hsub : lookupKey name s.subs = some sub) :
    s.findSubscription name = .ok sub := by
  unfold GServer.findSubscription
  rw [if_neg hname, hsub]

theorem checkAckDeadline_out {minAck ads : Int} (h : ads < minAck ∨ 600 < ads) :
    checkAckDeadline minAck ads =
      some ⟨Code.unknown, "bad ack_deadline_seconds: " ++ toString ads⟩ := by
  unfold checkAckDeadline
  rw [if_pos h]

theorem checkAckDeadline_in {minAck ads : Int} (h1 : minAck ≤ ads)
    (h2 : ads ≤ 600) : checkAckDeadline minAck ads = none := by
  unfold checkAckDeadline
  rw [if_neg (by omega)]

theorem checkMRD_default : checkMRD (some defaultMessageRetentionDuration) = none := by
  unfold checkMRD defaultMessageRetentionDuration maxMessageRetentionDuration
    minMessageRetentionDuration minuteNs hourNs nsPerSecond
  norm_num

theorem secsToDur_eq_zero_iff {secs : Int} : secsToDur secs = 0 ↔ secs = 0 := by
  unfold secsToDur nsPerSecond
  constructor
  · intro h
    rcases Int.mul_eq_zero.mp h with h | h
    · exact h
    · norm_num at h
  · intro h
    rw [h]
    ring

/-! ## C6: out-of-bounds ack deadlines fail with code Unknown -/

/-- C6: for every `CreateSubscription` or `UpdateSubscription` request whose
ack-deadline seconds lie outside `[configured minimum, 600]`, the operation
fails with a status of category `Unknown` (not `InvalidArgument`); requesting
700 seconds concretely produces the Unknown-category bad-deadline error, and
a request within bounds passes the check. -/
theorem c6_out_of_bounds_ack_deadline_unknown :
    (∀ minAck ads : Int, (ads < minAck ∨ 600 < ads) →
      checkAckDeadline minAck ads =
        some ⟨Code.unknown, "bad ack_deadline_seconds: " ++ toString ads⟩) ∧
    (∀ minAck ads : Int, minAck ≤ ads → ads ≤ 600 →
      checkAckDeadline minAck ads = none) ∧
    (∀ (minAck : Int) (s : GServer) (ps : SubscriptionProto) (top : Topic),
      ps.name ≠ "" → lookupKey ps.name s.subs = none → ps.topic ≠ "" →
      lookupKey ps.topic s.topics = some top →
      (ps.ackDeadlineSeconds < minAck ∨ 600 < ps.ackDeadlineSeconds) →
      (GServer.CreateSubscription minAck s ps).2 =
        .err ⟨Code.unknown,
          "bad ack_deadline_seconds: " ++ toString ps.ackDeadlineSeconds⟩) ∧
    (∀ (minAck : Int) (s : GServer) (rs : SubscriptionProto) (sub : Subscription),
      rs.name ≠ "" → lookupKey rs.name s.subs = some sub →
      (rs.ackDeadlineSeconds < minAck ∨ 600 < rs.ackDeadlineSeconds) →
      (GServer.UpdateSubscription minAck s
        { subscription := some rs,
          updateMaskPaths := ["ack_deadline_seconds"] }).2 =
        .err ⟨Code.unknown,
          "bad ack_deadline_seconds: " ++ toString rs.ackDeadlineSeconds⟩) ∧
    checkAckDeadline defaultMinAckDeadlineSecs 700 =
      some ⟨Code.unknown, "bad ack_deadline_seconds: 700"⟩ := by
  refine ⟨fun minAck ads h => checkAckDeadline_out h,
    fun minAck ads h1 h2 => checkAckDeadline_in h1 h2, ?_, ?_, ?_⟩
  · intro minAck s ps top hname hdup htne htop hads
    unfold GServer.CreateSubscription
    rw [if_neg hname, hdup]
    simp only
    rw [if_neg htne, htop]
    simp only
    rw [checkAckDeadline_out hads]
  · intro minAck s rs sub hname hsub hads
    unfold GServer.UpdateSubscription
    simp only
    rw [findSubscription_ok hname hsub]
    simp only
    unfold applySubMask
    rw [checkAckDeadline_out hads]
    simp
  · exact checkAckDeadline_out (by norm_num)

/-- Witness for C6 at concrete inputs: a 700-second deadline is rejected
with code `Unknown` by the check, by `CreateSubscription` on an existing
topic, and by `UpdateSubscription` on an existing subscription, while the
10-second default passes. -/
theorem c6_witness :
    checkAckDeadline 10 700 =
      some ⟨Code.unknown, "bad ack_deadline_seconds: 700"⟩ ∧
    checkAckDeadline 10 10 = none ∧
    (GServer.CreateSubscription 10 stTopic
      { subS with ackDeadlineSeconds := 700 }).2 =
        .err ⟨Code.unknown, "bad ack_deadline_seconds: 700"⟩ ∧
    (GServer.UpdateSubscription 10 stTopicSub
      { subscription := some { subS with ackDeadlineSeconds := 700 },
        updateMaskPaths := ["ack_deadline_seconds"] }).2 =
        .err ⟨Code.unknown, "bad ack_deadline_seconds: 700"⟩ :=
  ⟨c6_out_of_bounds_ack_deadline_unknown.1 10 700 (by norm_num),
   c6_out_of_bounds_ack_deadline_unknown.2.1 10 10 (by norm_num) (by norm_num),
   c6_out_of_bounds_ack_deadline_unknown.2.2.1 10 stTopic
     { subS with ackDeadlineSeconds := 700 } { proto := topicT, subs := [] }
     (by decide) (by rfl) (by decide) (by rfl) (by norm_num),
   c6_out_of_bounds_ack_deadline_unknown.2.2.2.1 10 stTopicSub
     { subS with ackDeadlineSeconds := 700 }
     ((lookupKey "s" stTopicSub.subs).getD (newSubscription subS))
     (by decide) (by rfl) (by norm_num)⟩

/-! ## C7: ModifyAckDeadline with 0 nacks, with d>0 extends the lease -/

/-- C7: for a `ModifyAckDeadline` on a pending message of an existing
subscription, a 0-second deadline makes the message immediately `Available`
(lease cleared, non-outstanding), and a deadline `d > 0` sets the lease
expiry to the call time plus `d`; stated for `subscription.modifyAckDeadline`
and lifted to the `ModifyAckDeadline` RPC. -/
theorem c7_modify_ack_deadline_lease (s : GServer) (now wallNow : Int)
    (name : String) (sub : Subscription) (id : Nat) (m : message) (mm : Message)
    (secs : Int)
    (hname : name ≠ "") (hsub : lookupKey name s.subs = some sub)
    (hpend : lookupKey id sub.msgs = some m)
    (hstore : lookupKey id s.msgsByID = some mm) :
    (lookupKey id (subscriptionModifyAckDeadline now sub id 0).msgs =
        some m.makeAvailable ∧
      (m.makeAvailable).outstanding = false) ∧
    (∀ d : Int, d ≠ 0 →
      lookupKey id (subscriptionModifyAckDeadline now sub id d).msgs =
        some { m with ackDeadline := some (now + d) }) ∧
    (∃ sub',
      (s.ModifyAckDeadline now wallNow
          { subscription := name, ackIds := [id], ackDeadlineSeconds := secs }).2 =
        .ok () ∧
      lookupKey name (s.ModifyAckDeadline now wallNow
          { subscription := name, ackIds := [id], ackDeadlineSeconds := secs }).1.subs =
        some sub' ∧
      lookupKey id sub'.msgs =
        some (if secs = 0 then m.makeAvailable
              else { m with ackDeadline := some (now + secsToDur secs) })) := by
  have hnack : subscriptionModifyAckDeadline now sub id 0 =
      { sub with msgs := updateKey id message.makeAvailable sub.msgs } := by
    unfold subscriptionModifyAckDeadline
    rw [hpend]
    simp
  have hext : ∀ d : Int, d ≠ 0 →
      subscriptionModifyAckDeadline now sub id d =
        { sub with msgs :=
            updateKey id (fun m0 => { m0 with ackDeadline := some (now + d) }) sub.msgs } := by
    intro d hd
    unfold subscriptionModifyAckDeadline
    rw [hpend]
    simp [hd]
  have hres : s.ModifyAckDeadline now wallNow
      { subscription := name, ackIds := [id], ackDeadlineSeconds := secs } =
    ({ s with
        msgsByID := insertKey id
          { mm with modacks := mm.modacks ++ [⟨id, secs, wallNow⟩] } s.msgsByID,
        subs := insertKey name
          (subscriptionModifyAckDeadline now sub id (secsToDur secs)) s.subs },
      .ok ()) := by
    unfold GServer.ModifyAckDeadline
    rw [findSubscription_ok hname hsub]
    simp only
    unfold recordModacks
    rw [hstore]
    simp only
    unfold recordModacks
    simp
  refine ⟨⟨?_, rfl⟩, ?_, ?_⟩
  · rw [hnack]
    simp only
    rw [lookupKey_updateKey_self, hpend]
    rfl
  · intro d hd
    rw [hext d hd]
    simp only
    rw [lookupKey_updateKey_self, hpend]
    rfl
  · refine ⟨subscriptionModifyAckDeadline now sub id (secsToDur secs), ?_, ?_, ?_⟩
    · rw [hres]
    · rw [hres]
      simp only
      rw [lookupKey_insertKey_self]
    · by_cases hz : secs = 0
      · have h0 : secsToDur secs = 0 := by
          rw [hz]
          rw [secsToDur_eq_zero_iff]
        rw [h0, hnack, if_pos hz]
        simp only
        rw [lookupKey_updateKey_self, hpend]
        rfl
      · have hdz : secsToDur secs ≠ 0 := fun h => hz (secsToDur_eq_zero_iff.mp h)
        rw [hext _ hdz, if_neg hz]
        simp only
        rw [lookupKey_updateKey_self, hpend]
        rfl

/-- Witness for C7: in `stPublished` the pending message 0 is nacked to
`Available` by a 0-second deadline, and the `ModifyAckDeadline` RPC with a
30-second deadline succeeds and re-leases it to time `5 + 30s`. -/
theorem c7_witness :
    (lookupKey 0 (subscriptionModifyAckDeadline 5 stPublishedSub 0 0).msgs =
        some ⟨⟨0, some ⟨[104, 105], [], "", 0, some 0⟩⟩, 0, none, -1⟩) ∧
    (∃ sub',
      (stPublished.ModifyAckDeadline 5 5 ⟨"s", [0], 30⟩).2 = .ok () ∧
      lookupKey "s" (stPublished.ModifyAckDeadline 5 5 ⟨"s", [0], 30⟩).1.subs =
        some sub' ∧
      lookupKey 0 sub'.msgs =
        some ⟨⟨0, some ⟨[104, 105], [], "", 0, some 0⟩⟩, 0,
          some (5 + secsToDur 30), -1⟩) := by
  have h := c7_modify_ack_deadline_lease stPublished 5 5 "s" stPublishedSub 0
    ⟨⟨0, some ⟨[104, 105], [], "", 0, some 0⟩⟩, 0, none, -1⟩
    ((lookupKey 0 stPublished.msgsByID).getD ⟨0, [], [], "", 0, 0, 0, []⟩)
    30 (by decide) (by rfl) (by rfl) (by rfl)
  refine ⟨h.1.1, ?_⟩
  obtain ⟨sub', h2, h3, h4⟩ := h.2.2
  exact ⟨sub', h2, h3, h4⟩

/-! ## C8: CreateSubscription validation and defaulting -/

/-- C8: `CreateSubscription` fails with `NotFound` when the named topic does
not exist, `AlreadyExists` when the subscription name is taken,
`InvalidArgument` when the name or topic field is missing (each under the
earlier checks passing, in the source's checking order); and when retention
or push config is omitted they are defaulted — retention to the maximum
bound (168 hours), push config to an empty one — before the subscription is
registered. -/
theorem c8_create_subscription_validation :
    (∀ (minAck : Int) (s : GServer) (ps : SubscriptionProto), ps.name = "" →
      (GServer.CreateSubscription minAck s ps).2 =
        .err ⟨Code.invalidArgument, "missing name"⟩) ∧
    (∀ (minAck : Int) (s : GServer) (ps : SubscriptionProto) (sub : Subscription),
      ps.name ≠ "" → lookupKey ps.name s.subs = some sub →
      (GServer.CreateSubscription minAck s ps).2 =
        .err ⟨Code.alreadyExists, "subscription"⟩) ∧
    (∀ (minAck : Int) (s : GServer) (ps : SubscriptionProto),
      ps.name ≠ "" → lookupKey ps.name s.subs = none → ps.topic = "" →
      (GServer.CreateSubscription minAck s ps).2 =
        .err ⟨Code.invalidArgument, "missing topic"⟩) ∧
    (∀ (minAck : Int) (s : GServer) (ps : SubscriptionProto),
      ps.name ≠ "" → lookupKey ps.name s.subs = none → ps.topic ≠ "" →
      lookupKey ps.topic s.topics = none →
      (GServer.CreateSubscription minAck s ps).2 =
        .err ⟨Code.notFound, "topic"⟩) ∧
    (∀ (minAck : Int) (s : GServer) (ps : SubscriptionProto) (top : Topic),
      ps.name ≠ "" → lookupKey ps.name s.subs = none → ps.topic ≠ "" →
      lookupKey ps.topic s.topics = some top →
      checkAckDeadline minAck ps.ackDeadlineSeconds = none →
      ps.messageRetentionDuration = none → ps.pushConfig = none →
      ∃ ps' : SubscriptionProto,
        (GServer.CreateSubscription minAck s ps).2 = .ok ps' ∧
        ps'.messageRetentionDuration = some maxMessageRetentionDuration ∧
        maxMessageRetentionDuration = 168 * hourNs ∧
        ps'.pushConfig = some ⟨""⟩ ∧
        lookupKey ps.name (GServer.CreateSubscription minAck s ps).1.subs =
          some (newSubscription ps')) := by
  refine ⟨?_, ?_, ?_, ?_, ?_⟩
  · intro minAck s ps hname
    unfold GServer.CreateSubscription
    rw [if_pos hname]
  · intro minAck s ps sub hname hdup
    unfold GServer.CreateSubscription
    rw [if_neg hname, hdup]
  · intro minAck s ps hname hdup htz
    unfold GServer.CreateSubscription
    rw [if_neg hname, hdup]
    simp only
    rw [if_pos htz]
  · intro minAck s ps hname hdup htne htop
    unfold GServer.CreateSubscription
    rw [if_neg hname, hdup]
    simp only
    rw [if_neg htne, htop]
  · intro minAck s ps top hname hdup htne htop hack hmrd hpush
    have hred : GServer.CreateSubscription minAck s ps =
      ({ s with
          topics := insertKey ps.topic { top with subs := top.subs ++ [ps.name] } s.topics,
          subs := insertKey ps.name
            (newSubscription { ps with
              messageRetentionDuration := some defaultMessageRetentionDuration,
              pushConfig := some ⟨""⟩ }) s.subs },
        .ok { ps with
          messageRetentionDuration := some defaultMessageRetentionDuration,
          pushConfig := some ⟨""⟩ }) := by
      unfold GServer.CreateSubscription
      rw [if_neg hname, hdup]
      simp only
      rw [if_neg htne, htop]
      simp only
      rw [hack]
      simp only
      rw [if_pos hmrd]
      simp only [checkMRD_default]
      rw [if_pos (show ({ ps with
        messageRetentionDuration := some defaultMessageRetentionDuration
          : SubscriptionProto }).pushConfig = none from hpush)]
    refine ⟨{ ps with
        messageRetentionDuration := some defaultMessageRetentionDuration,
        pushConfig := some ⟨""⟩ }, ?_, rfl, rfl, rfl, ?_⟩
    · rw [hred]
    · rw [hred]
      simp only
      rw [lookupKey_insertKey_self]

/-- Witness for C8 at concrete inputs: each validation failure and the
defaulting of retention and push config on successful creation. -/
theorem c8_witness :
    (GServer.CreateSubscription 10 GServer.initial { subS with name := "" }).2 =
      .err ⟨Code.invalidArgument, "missing name"⟩ ∧
    (GServer.CreateSubscription 10 stTopicSub subS).2 =
      .err ⟨Code.alreadyExists, "subscription"⟩ ∧
    (GServer.CreateSubscription 10 stTopic { subS with topic := "" }).2 =
      .err ⟨Code.invalidArgument, "missing topic"⟩ ∧
    (GServer.CreateSubscription 10 GServer.initial subS).2 =
      .err ⟨Code.notFound, "topic"⟩ ∧
    (∃ ps', (GServer.CreateSubscription 10 stTopic subS).2 = .ok ps' ∧
      ps'.messageRetentionDuration = some maxMessageRetentionDuration ∧
      ps'.pushConfig = some ⟨""⟩) := by
  have h := c8_create_subscription_validation
  refine ⟨h.1 10 GServer.initial { subS with name := "" } rfl,
    h.2.1 10 stTopicSub subS
      ((lookupKey "s" stTopicSub.subs).getD (newSubscription subS))
      (by decide) (by rfl),
    h.2.2.1 10 stTopic { subS with topic := "" } (by decide) (by rfl) rfl,
    h.2.2.2.1 10 GServer.initial subS (by decide) (by rfl) (by decide) (by rfl),
    ?_⟩
  obtain ⟨ps', h1, h2, h3, h4, h5⟩ :=
    h.2.2.2.2 10 stTopic subS ⟨topicT, []⟩ (by decide) (by rfl) (by decide)
      (by rfl) (by decide) (by rfl) (by rfl)
  exact ⟨ps', h1, h2, h4⟩

/-! ## C2: unknown ack ids in Acknowledge and ModifyAckDeadline -/

/-- C2 counterexample: on a broker with an existing subscription `"s"` and no
published message `99`, `ModifyAckDeadline` for the never-assigned ack id 99
does not return success — the unguarded `s.msgsByID[id].modacks` access
dereferences a nil `*Message` and panics. -/
theorem c2_counterexample :
    (stTopicSub.ModifyAckDeadline 5 5 ⟨"s", [99], 30⟩).2 =
      .nilPanic "ModifyAckDeadline: nil msgsByID entry" ∧
    (stTopicSub.ModifyAckDeadline 5 5 ⟨"s", [99], 30⟩).2 ≠ .ok () := by
  exact ⟨rfl, by decide⟩

/-- C2 (amended): `Acknowledge` ignores every unknown ack id (including ids
never assigned by any Publish) and returns success with the broker state
unchanged; `ModifyAckDeadline` does so only for unknown ids that exist in the
broker's published-message store (published at some point but not pending in
the subscription): it returns success, appends the modification to that
message's audit log, and leaves the subscription unchanged.  An id never
assigned by any Publish instead makes `ModifyAckDeadline` panic on a nil
store entry (see the counterexample). -/
theorem c2_unknown_ids_amended :
    (∀ (s : GServer) (name : String) (sub : Subscription) (ids : List Nat),
      name ≠ "" → lookupKey name s.subs = some sub →
      (∀ id ∈ ids, lookupKey id sub.msgs = none) →
      (s.Acknowledge ⟨name, ids⟩).2 = .ok () ∧
      (s.Acknowledge ⟨name, ids⟩).1.msgsByID = s.msgsByID ∧
      lookupKey name (s.Acknowledge ⟨name, ids⟩).1.subs = some sub) ∧
    (∀ (s : GServer) (now wallNow : Int) (name : String) (sub : Subscription)
        (id : Nat) (mm : Message) (secs : Int),
      name ≠ "" → lookupKey name s.subs = some sub →
      lookupKey id s.msgsByID = some mm →
      lookupKey id sub.msgs = none →
      (s.ModifyAckDeadline now wallNow ⟨name, [id], secs⟩).2 = .ok () ∧
      lookupKey id (s.ModifyAckDeadline now wallNow ⟨name, [id], secs⟩).1.msgsByID =
        some { mm with modacks := mm.modacks ++ [⟨id, secs, wallNow⟩] } ∧
      lookupKey name (s.ModifyAckDeadline now wallNow ⟨name, [id], secs⟩).1.subs =
        some sub) := by
  have hfold : ∀ (ids : List Nat) (store : List (Nat × Message)) (sb : Subscription),
      (∀ id ∈ ids, lookupKey id sb.msgs = none) →
      ids.foldl subscriptionAck (store, sb) = (store, sb) := by
    intro ids
    induction ids with
    | nil =>
      intro store sb h
      rfl
    | cons hd tl ih =>
      intro store sb h
      have hstep : subscriptionAck (store, sb) hd = (store, sb) := by
        unfold subscriptionAck
        rw [h hd (List.mem_cons_self _ _)]
      calc (hd :: tl).foldl subscriptionAck (store, sb)
          = tl.foldl subscriptionAck (subscriptionAck (store, sb) hd) := rfl
        _ = tl.foldl subscriptionAck (store, sb) := by rw [hstep]
        _ = (store, sb) := ih store sb (fun id hi => h id (List.mem_cons_of_mem _ hi))
  constructor
  · intro s name sub ids hname hsub hunk
    have hack : s.Acknowledge ⟨name, ids⟩ =
        ({ s with msgsByID := s.msgsByID, subs := insertKey name sub s.subs }, .ok ()) := by
      unfold GServer.Acknowledge
      rw [findSubscription_ok hname hsub]
      simp only
      rw [hfold ids s.msgsByID sub hunk]
    rw [hack]
    exact ⟨rfl, rfl, lookupKey_insertKey_self⟩
  · intro s now wallNow name sub id mm secs hname hsub hstore hnp
    have hnomod : subscriptionModifyAckDeadline now sub id (secsToDur secs) = sub := by
      unfold subscriptionModifyAckDeadline
      rw [hnp]
    have hres : s.ModifyAckDeadline now wallNow ⟨name, [id], secs⟩ =
      ({ s with
          msgsByID := insertKey id
            { mm with modacks := mm.modacks ++ [⟨id, secs, wallNow⟩] } s.msgsByID,
          subs := insertKey name sub s.subs },
        .ok ()) := by
      unfold GServer.ModifyAckDeadline
      rw [findSubscription_ok hname hsub]
      simp only
      unfold recordModacks
      rw [hstore]
      simp only
      unfold recordModacks
      simp only [List.foldl]
      rw [hnomod]
      simp
    rw [hres]
    exact ⟨rfl, lookupKey_insertKey_self, lookupKey_insertKey_self⟩

/-- Witness for C2 (amended): in `stStoreOnly` (message 0 published before
the subscription existed, so known to the store but pending nowhere),
`Acknowledge` of ids 0 and 99 is a successful no-op, and `ModifyAckDeadline`
of id 0 succeeds and records the audit entry. -/
theorem c2_witness :
    ((stStoreOnly.Acknowledge ⟨"s", [0, 99]⟩).2 = .ok () ∧
      (stStoreOnly.Acknowledge ⟨"s", [0, 99]⟩).1.msgsByID = stStoreOnly.msgsByID) ∧
    ((stStoreOnly.ModifyAckDeadline 5 7 ⟨"s", [0], 30⟩).2 = .ok () ∧
      lookupKey 0 (stStoreOnly.ModifyAckDeadline 5 7 ⟨"s", [0], 30⟩).1.msgsByID =
        some { (lookupKey 0 stStoreOnly.msgsByID).getD ⟨0, [], [], "", 0, 0, 0, []⟩ with
          modacks :=
            ((lookupKey 0 stStoreOnly.msgsByID).getD ⟨0, [], [], "", 0, 0, 0, []⟩).modacks
              ++ [⟨0, 30, 7⟩] }) := by
  have h1 := c2_unknown_ids_amended.1 stStoreOnly "s"
    ((lookupKey "s" stStoreOnly.subs).getD (newSubscription subS)) [0, 99]
    (by decide) (by rfl) (by decide)
  have h2 := c2_unknown_ids_amended.2 stStoreOnly 5 7 "s"
    ((lookupKey "s" stStoreOnly.subs).getD (newSubscription subS)) 0
    ((lookupKey 0 stStoreOnly.msgsByID).getD ⟨0, [], [], "", 0, 0, 0, []⟩) 30
    (by decide) (by rfl) (by rfl) (by rfl)
  exact ⟨⟨h1.1, h1.2.1⟩, ⟨h2.1, h2.2.1⟩⟩

/-! ## C3: the retention sweep uses a fixed 10-minute constant -/

theorem demote_proto (now : Int) (m : message) : (demote now m).proto = m.proto := by
  unfold demote
  split
  · split
    · rfl
    · rfl
  · rfl

theorem demote_publishTime (now : Int) (m : message) :
    (demote now m).publishTime = m.publishTime := by
  unfold demote
  split
  · split
    · rfl
    · rfl
  · rfl

theorem pubTimeOf_demote (now : Int) (m : message) :
    pubTimeOf (demote now m) = pubTimeOf m := by
  unfold pubTimeOf
  rw [demote_proto]

/-- When no pending entry has a nil proto `Message`, one maintenance pass
computes exactly the demote-then-filter characterization `sweepSpec`. -/
theorem maintainLoop_eq_sweepSpec (now : Int) :
    ∀ l : List (Nat × message), (∀ p ∈ l, p.2.proto.message.isSome) →
      maintainLoop now l = .ok (sweepSpec now l) := by
  intro l
  induction l with
  | nil =>
    intro _
    rfl
  | cons hd tl ih =>
    intro h
    obtain ⟨id, m0⟩ := hd
    have hs : m0.proto.message.isSome := h (id, m0) (List.mem_cons_self _ _)
    have htl : ∀ p ∈ tl, p.2.proto.message.isSome :=
      fun p hp => h p (List.mem_cons_of_mem _ hp)
    obtain ⟨pm, hpm⟩ := Option.isSome_iff_exists.mp hs
    have hdm : (demote now m0).proto.message = some pm := by
      rw [demote_proto]
      exact hpm
    have hpt : pubTimeOf (demote now m0) = pm.publishTime.getD 0 := by
      unfold pubTimeOf
      rw [hdm]
    simp only [maintainLoop, hdm, ih htl]
    unfold sweepSpec
    simp only [List.map_cons, List.filter_cons]
    rw [hpt]
    by_cases hout : (demote now m0).outstanding = true
    · rw [hout]
      simp
    · have hout' : (demote now m0).outstanding = false := by
        simp at hout
        exact hout
      rw [hout']
      by_cases hage : now - pm.publishTime.getD 0 > retentionDuration
      · have hdec : decide (now - pm.publishTime.getD 0 ≤ retentionDuration) = false := by
          rw [decide_eq_false_iff_not]
          omega
        rw [hdec]
        simp [hage]
      · have hdec : decide (now - pm.publishTime.getD 0 ≤ retentionDuration) = true := by
          rw [decide_eq_true_eq]
          omega
        rw [hdec]
        simp [hage]

/-- C3 counterexample: the subscription of `stPublished` is configured with
the maximum retention (168 hours), its single pending message is `Available`
with age 20 minutes — well within the configured retention — yet the
maintenance sweep removes it, because the sweep compares against the fixed
package-level 10-minute `retentionDuration`, not the subscription's
configured one. -/
theorem c3_counterexample :
    stPublishedSub.proto.messageRetentionDuration = some maxMessageRetentionDuration ∧
    lookupKey 0 stPublishedSub.msgs =
      some ⟨⟨0, some ⟨[104, 105], [], "", 0, some 0⟩⟩, 0, none, -1⟩ ∧
    (20 * minuteNs - 0 ≤ maxMessageRetentionDuration) ∧
    subscriptionMaintainMessages (20 * minuteNs) stPublishedSub =
      .ok { stPublishedSub with msgs := [] } :=
  ⟨rfl, rfl, by decide, rfl⟩

/-- C3 (amended): the background sweep (`maintainMessages`) first demotes
expired leases, then purges exactly the non-outstanding entries whose age
since publish exceeds the fixed package constant `retentionDuration` of 10
minutes — not the subscription's configured message-retention duration,
which the sweep never consults; an entry still leased after demotion is
never purged. -/
theorem c3_retention_sweep_amended (now : Int) (sub : Subscription)
    (hall : ∀ p ∈ sub.msgs, p.2.proto.message.isSome) :
    subscriptionMaintainMessages now sub =
      .ok { sub with msgs := sweepSpec now sub.msgs } ∧
    retentionDuration = 10 * minuteNs ∧
    (∀ p ∈ sub.msgs, (demote now p.2).outstanding →
      (p.1, demote now p.2) ∈ sweepSpec now sub.msgs) ∧
    (∀ p ∈ sub.msgs, (demote now p.2).outstanding = false →
      ((p.1, demote now p.2) ∈ sweepSpec now sub.msgs ↔
        now - pubTimeOf p.2 ≤ retentionDuration)) := by
  refine ⟨?_, rfl, ?_, ?_⟩
  · unfold subscriptionMaintainMessages
    rw [maintainLoop_eq_sweepSpec now sub.msgs hall]
  · intro p hp hout
    unfold sweepSpec
    refine List.mem_filter.mpr ⟨List.mem_map.mpr ⟨p, hp, rfl⟩, ?_⟩
    rw [hout]
    rfl
  · intro p hp hout
    constructor
    · intro hmem
      have hc := (List.mem_filter.mp hmem).2
      rw [hout, pubTimeOf_demote] at hc
      simp at hc
      omega
    · intro hage
      unfold sweepSpec
      refine List.mem_filter.mpr ⟨List.mem_map.mpr ⟨p, hp, rfl⟩, ?_⟩
      rw [hout, pubTimeOf_demote]
      simp
      omega

/-- Witness for C3 (amended) at `stPublishedSub` and sweep time 20 minutes:
the sweep equals its demote-then-filter characterization against the fixed
10-minute constant. -/
theorem c3_witness :
    subscriptionMaintainMessages (20 * minuteNs) stPublishedSub =
      .ok { stPublishedSub with
        msgs := sweepSpec (20 * minuteNs) stPublishedSub.msgs } ∧
    retentionDuration = 10 * minuteNs :=
  ⟨(c3_retention_sweep_amended (20 * minuteNs) stPublishedSub (by decide)).1,
   (c3_retention_sweep_amended (20 * minuteNs) stPublishedSub (by decide)).2.1⟩

/-! ## C4: field-masked updates are not all-or-nothing -/

/-- C4 counterexample: `UpdateTopic` of topic `"t"` with mask paths
`["labels", "bogus"]` returns the `InvalidArgument` error for the unknown
path, yet the labels assignment made by the first mask path survives: the
registered topic's labels are the new ones, not the unchanged ones the
all-or-nothing claim requires. -/
theorem c4_counterexample :
    (stTopic.UpdateTopic updTopicReq).2 =
      .err ⟨Code.invalidArgument, "unknown field name"⟩ ∧
    lookupKey "t" (stTopic.UpdateTopic updTopicReq).1.topics =
      some ⟨⟨"t", [("k", "v")], none⟩, []⟩ ∧
    lookupKey "t" stTopic.topics = some ⟨⟨"t", [], none⟩, []⟩ :=
  ⟨rfl, rfl, rfl⟩

/-- C4 (amended): a field-masked update whose mask contains an invalid path
(unknown name or out-of-bounds value) returns an error, but the mutations
made for the mask paths processed before the failing one remain applied —
each path is validated only when the loop reaches it, so updates are not
all-or-nothing.  Shown for `UpdateTopic` (labels applied, then an unknown
path) and `UpdateSubscription` (push config applied, then an out-of-bounds
ack deadline). -/
theorem c4_partial_update_survives_error :
    (∀ (s : GServer) (req : UpdateTopicRequest) (t : Topic) (bad : String),
      lookupKey req.topic.name s.topics = some t →
      req.updateMaskPaths = ["labels", bad] →
      bad ≠ "labels" → bad ≠ "message_storage_policy" →
      (s.UpdateTopic req).2 = .err ⟨Code.invalidArgument, "unknown field name"⟩ ∧
      lookupKey req.topic.name (s.UpdateTopic req).1.topics =
        some ({ t with proto := { t.proto with labels := req.topic.labels } })) ∧
    (∀ (minAck : Int) (s : GServer) (rs : SubscriptionProto) (sub : Subscription),
      rs.name ≠ "" → lookupKey rs.name s.subs = some sub →
      (rs.ackDeadlineSeconds < minAck ∨ 600 < rs.ackDeadlineSeconds) →
      (GServer.UpdateSubscription minAck s
        ⟨some rs, ["push_config", "ack_deadline_seconds"]⟩).2 =
        .err ⟨Code.unknown,
          "bad ack_deadline_seconds: " ++ toString rs.ackDeadlineSeconds⟩ ∧
      lookupKey rs.name (GServer.UpdateSubscription minAck s
        ⟨some rs, ["push_config", "ack_deadline_seconds"]⟩).1.subs =
        some ({ sub with proto := { sub.proto with pushConfig := rs.pushConfig } })) := by
  constructor
  · intro s req t bad htop hpaths hb1 hb2
    have hres : s.UpdateTopic req =
      ({ s with topics := insertKey req.topic.name ({ t with proto := { t.proto with labels := req.topic.labels } }) s.topics }, .err ⟨Code.invalidArgument, "unknown field name"⟩) := by
      unfold GServer.UpdateTopic
      rw [htop]
      simp only
      rw [hpaths]
      unfold applyTopicMask
      unfold applyTopicMask
      simp [hb1, hb2]
    rw [hres]
    exact ⟨rfl, lookupKey_insertKey_self⟩
  · intro minAck s rs sub hname hsub hads
    have hres : GServer.UpdateSubscription minAck s
        ⟨some rs, ["push_config", "ack_deadline_seconds"]⟩ =
      ({ s with subs := insertKey rs.name ({ sub with proto := { sub.proto with pushConfig := rs.pushConfig } }) s.subs }, .err ⟨Code.unknown, "bad ack_deadline_seconds: " ++ toString rs.ackDeadlineSeconds⟩) := by
      unfold GServer.UpdateSubscription
      simp only
      rw [findSubscription_ok hname hsub]
      simp only
      unfold applySubMask
      unfold applySubMask
      rw [checkAckDeadline_out hads]
      simp
    rw [hres]
    exact ⟨rfl, lookupKey_insertKey_self⟩

/-- Witness for C4 (amended) at concrete inputs: the topic keeps the new
labels and the subscription keeps the new push config after their updates
error out on the later mask path. -/
theorem c4_witness :
    ((stTopic.UpdateTopic updTopicReq).2 =
        .err ⟨Code.invalidArgument, "unknown field name"⟩ ∧
      lookupKey "t" (stTopic.UpdateTopic updTopicReq).1.topics =
        some ({ (⟨topicT, []⟩ : Topic) with
          proto := { topicT with labels := [("k", "v")] } })) ∧
    ((GServer.UpdateSubscription 10 stTopicSub
        ⟨some { subS with ackDeadlineSeconds := 700, pushConfig := some ⟨"push-url"⟩ },
          ["push_config", "ack_deadline_seconds"]⟩).2 =
        .err ⟨Code.unknown, "bad ack_deadline_seconds: 700"⟩ ∧
      lookupKey "s" (GServer.UpdateSubscription 10 stTopicSub
        ⟨some { subS with ackDeadlineSeconds := 700, pushConfig := some ⟨"push-url"⟩ },
          ["push_config", "ack_deadline_seconds"]⟩).1.subs =
        some ({ (lookupKey "s" stTopicSub.subs).getD (newSubscription subS) with
          proto := { ((lookupKey "s" stTopicSub.subs).getD (newSubscription subS)).proto with pushConfig := some ⟨"push-url"⟩ } })) := by
  have h1 := c4_partial_update_survives_error.1 stTopic updTopicReq
    ⟨topicT, []⟩ "bogus" (by rfl) (by rfl) (by decide) (by decide)
  have h2 := c4_partial_update_survives_error.2 10 stTopicSub
    { subS with ackDeadlineSeconds := 700, pushConfig := some ⟨"push-url"⟩ }
    ((lookupKey "s" stTopicSub.subs).getD (newSubscription subS))
    (by decide) (by rfl) (by norm_num)
  exact ⟨⟨h1.1, h1.2⟩, ⟨h2.1, h2.2⟩⟩

/-! ## Lemmas about Seek's reinsertion loop and Publish's fan-out -/

theorem seekReinsert_cons (target : Int) (store : List (Nat × Message))
    (hd : Nat) (rest : List Nat) (sub : Subscription) :
    seekReinsert target store (hd :: rest) sub =
      seekReinsert target store rest (seekStep target store sub hd) := rfl

theorem seekStep_lookup_ne (target : Int) (store : List (Nat × Message))
    (sb : Subscription) (mid k : Nat)
    (hk : ∀ m', lookupKey k store = some m' → m'.publishTime < target) :
    lookupKey k (seekStep target store sb mid).msgs = lookupKey k sb.msgs := by
  unfold seekStep
  cases hm : lookupKey mid store with
  | none => rfl
  | some m =>
    dsimp only
    by_cases hlt : m.publishTime < target
    · rw [if_pos hlt]
    · rw [if_neg hlt]
      by_cases hmk : k = mid
      · subst hmk
        exact absurd (hk m hm) hlt
      · exact lookupKey_insertKey_ne hmk

theorem seekReinsert_lookup_none (target : Int) (store : List (Nat × Message)) :
    ∀ (order : List Nat) (sub : Subscription) (k : Nat),
      (∀ m', lookupKey k store = some m' → m'.publishTime < target) →
      lookupKey k (seekReinsert target store order sub).msgs =
        lookupKey k sub.msgs := by
  intro order
  induction order with
  | nil =>
    intro sub k hk
    rfl
  | cons hd rest ih =>
    intro sub k hk
    rw [seekReinsert_cons, ih _ k hk, seekStep_lookup_ne target store sub hd k hk]

theorem seekReinsert_lookup (target : Int) (store : List (Nat × Message))
    (mid : Nat) (m : Message) (hm : lookupKey mid store = some m)
    (hq : ¬ m.publishTime < target) :
    ∀ (order : List Nat) (sub : Subscription),
      (mid ∈ order ∨
        lookupKey mid sub.msgs = some (freshSeekEntry mid m.publishTime)) →
      lookupKey mid (seekReinsert target store order sub).msgs =
        some (freshSeekEntry mid m.publishTime) := by
  intro order
  induction order with
  | nil =>
    intro sub h
    rcases h with h | h
    · simp at h
    · exact h
  | cons hd rest ih =>
    intro sub h
    rw [seekReinsert_cons]
    by_cases hhd : hd = mid
    · subst hhd
      apply ih
      right
      unfold seekStep
      rw [hm]
      dsimp only
      rw [if_neg hq]
      exact lookupKey_insertKey_self
    · apply ih
      rcases h with h | h
      · rcases List.mem_cons.mp h with h' | h'
        · exact absurd h'.symm hhd
        · exact Or.inl h'
      · right
        unfold seekStep
        cases hm' : lookupKey hd store with
        | none => exact h
        | some m' =>
          dsimp only
          by_cases hlt : m'.publishTime < target
          · rw [if_pos hlt]
            exact h
          · rw [if_neg hlt]
            rw [lookupKey_insertKey_ne (Ne.symm hhd)]
            exact h

theorem seekReinsert_mem (target : Int) (store : List (Nat × Message)) :
    ∀ (order : List Nat) (sub : Subscription) (q : Nat × message),
      q ∈ (seekReinsert target store order sub).msgs →
      (∃ m, lookupKey q.1 store = some m ∧ ¬ m.publishTime < target ∧
        q = (q.1, freshSeekEntry q.1 m.publishTime)) ∨ q ∈ sub.msgs := by
  intro order
  induction order with
  | nil =>
    intro sub q hq
    exact Or.inr hq
  | cons hd rest ih =>
    intro sub q hq
    rw [seekReinsert_cons] at hq
    rcases ih _ q hq with h | h
    · exact Or.inl h
    · unfold seekStep at h
      cases hm : lookupKey hd store with
      | none =>
        rw [hm] at h
        exact Or.inr h
      | some m =>
        rw [hm] at h
        dsimp only at h
        by_cases hlt : m.publishTime < target
        · rw [if_pos hlt] at h
          exact Or.inr h
        · rw [if_neg hlt] at h
          rcases mem_insertKey h with h' | h'
          · subst h'
            exact Or.inl ⟨m, hm, hlt, rfl⟩
          · exact Or.inr h'.1

theorem lookupKey_topicPublish (subNames : List String) (pm : PubsubMessage)
    (t : Int) (nm : String) :
    ∀ subs : List (String × Subscription),
      lookupKey nm (topicPublish subNames pm t subs) =
        (lookupKey nm subs).map (fun sb =>
          if nm ∈ subNames then
            { sb with msgs := insertKey pm.messageId (fanoutEntry pm t) sb.msgs }
          else sb) := by
  intro subs
  induction subs with
  | nil => rfl
  | cons hd tl ih =>
    obtain ⟨a, b⟩ := hd
    show lookupKey nm
      ((if a ∈ subNames then
          (a, { b with msgs := insertKey pm.messageId (fanoutEntry pm t) b.msgs })
        else (a, b)) :: topicPublish subNames pm t tl) = _
    by_cases ha : a ∈ subNames
    · rw [if_pos ha]
      by_cases han : a = nm
      · subst han
        simp [ha]
      · simp [han, ih]
    · rw [if_neg ha]
      by_cases han : a = nm
      · subst han
        simp [ha]
      · simp [han, ih]

/-! ## C10: Seek reinsertions carry a nil proto and make the sweep panic -/

/-- C10: every pending entry `topic.publish` creates carries the published
message proto (non-nil); every entry `Seek` reinserts carries a nil proto
`Message`; and since the maintenance sweep that runs before every delivery
attempt reads the publish time through that proto, a Pull after a Seek that
reinserted a historical message is a nil dereference — shown at the
reachable state `stSeeked` (topic, subscription, one publish, Seek to time
0), where Pull panics instead of completing. -/
theorem c10_seek_reinserts_nil_proto_and_pull_panics :
    (∀ (subNames : List String) (pm : PubsubMessage) (t : Int)
        (subs : List (String × Subscription)) (nm : String) (sub0 : Subscription),
      nm ∈ subNames → lookupKey nm subs = some sub0 →
      ∃ sub', lookupKey nm (topicPublish subNames pm t subs) = some sub' ∧
        lookupKey pm.messageId sub'.msgs = some (fanoutEntry pm t) ∧
        (fanoutEntry pm t).proto.message = some pm) ∧
    (∀ (target : Int) (store : List (Nat × Message)) (order : List Nat)
        (sub : Subscription) (mid : Nat) (m : Message),
      lookupKey mid store = some m → ¬ m.publishTime < target → mid ∈ order →
      lookupKey mid (seekReinsert target store order sub).msgs =
        some (freshSeekEntry mid m.publishTime) ∧
      (freshSeekEntry mid m.publishTime).proto.message = none) ∧
    (stSeeked.Pull 20 ⟨"s", 10, true⟩).2 =
      .nilPanic "maintainMessages: m.proto.Message is nil" := by
  refine ⟨?_, ?_, rfl⟩
  · intro subNames pm t subs nm sub0 hnm hsub
    have hl : lookupKey nm (topicPublish subNames pm t subs) =
        some ({ sub0 with
          msgs := insertKey pm.messageId (fanoutEntry pm t) sub0.msgs }) := by
      rw [lookupKey_topicPublish, hsub]
      simp [hnm]
    refine ⟨_, hl, ?_, rfl⟩
    exact lookupKey_insertKey_self
  · intro target store order sub mid m hm hq horder
    exact ⟨seekReinsert_lookup target store mid m hm hq order sub (Or.inl horder), rfl⟩

/-- Witness for C10: the fan-out entry of the concretely published message
carries its proto, and the Seek reinsertion of message 0 in `stPublished`
carries a nil proto. -/
theorem c10_witness :
    (∃ sub', lookupKey "s" (topicPublish ["s"]
        ⟨[104, 105], [], "", 0, some 0⟩ 0 stTopicSub.subs) = some sub' ∧
      lookupKey 0 sub'.msgs =
        some (fanoutEntry ⟨[104, 105], [], "", 0, some 0⟩ 0) ∧
      (fanoutEntry ⟨[104, 105], [], "", 0, some 0⟩ 0).proto.message =
        some ⟨[104, 105], [], "", 0, some 0⟩) ∧
    (lookupKey 0 (seekReinsert 0 stPublished.msgsByID [0] stPublishedSub).msgs =
        some (freshSeekEntry 0 0) ∧
      (freshSeekEntry 0 0).proto.message = none) := by
  have h1 := c10_seek_reinserts_nil_proto_and_pull_panics.1 ["s"]
    ⟨[104, 105], [], "", 0, some 0⟩ 0 stTopicSub.subs "s"
    ((lookupKey "s" stTopicSub.subs).getD (newSubscription subS))
    (by decide) (by rfl)
  have h2 := c10_seek_reinserts_nil_proto_and_pull_panics.2.1 0
    stPublished.msgsByID [0] stPublishedSub 0
    ((lookupKey 0 stPublished.msgsByID).getD ⟨0, [], [], "", 0, 0, 0, []⟩)
    (by rfl) (by decide) (by decide)
  exact ⟨h1, h2.1, h2.2⟩

/-! ## Lemmas about Seek's acking loop and empty pulls -/

theorem mem_eq_of_nodup_keys {κ β : Type} [DecidableEq κ] :
    ∀ {l : List (κ × β)} {p q : κ × β}, (l.map Prod.fst).Nodup →
      p ∈ l → q ∈ l → p.1 = q.1 → p = q := by
  intro l
  induction l with
  | nil =>
    intro p q _ hp _ _
    simp at hp
  | cons hd tl ih =>
    intro p q hnd hp hq hk
    rw [List.map_cons, List.nodup_cons] at hnd
    rcases List.mem_cons.mp hp with hp' | hp' <;>
      rcases List.mem_cons.mp hq with hq' | hq'
    · rw [hp', hq']
    · exfalso
      apply hnd.1
      rw [← hp', hk]
      exact List.mem_map.mpr ⟨q, hq', rfl⟩
    · exfalso
      apply hnd.1
      rw [← hq', ← hk]
      exact List.mem_map.mpr ⟨p, hp', rfl⟩
    · exact ih hnd.2 hp' hq' hk

theorem foldl_bumpAcks_lookup :
    ∀ (dl : List (Nat × message)) (store : List (Nat × Message)) (k : Nat),
      (dl.map Prod.fst).Nodup →
      lookupKey k (dl.foldl (fun st p => bumpAcks p.1 st) store) =
        if k ∈ dl.map Prod.fst then
          (lookupKey k store).map (fun mm => { mm with acks := mm.acks + 1 })
        else lookupKey k store := by
  intro dl
  induction dl with
  | nil =>
    intro store k _
    simp
  | cons hd tl ih =>
    intro store k hnd
    rw [List.map_cons, List.nodup_cons] at hnd
    show lookupKey k
      (tl.foldl (fun st p => bumpAcks p.1 st) (bumpAcks hd.1 store)) = _
    rw [ih (bumpAcks hd.1 store) k hnd.2]
    by_cases hk : k = hd.1
    · subst hk
      rw [if_neg hnd.1, if_pos (by simp)]
      unfold bumpAcks
      exact lookupKey_updateKey_self
    · by_cases hmem : k ∈ tl.map Prod.fst
      · rw [if_pos hmem, if_pos (by simp [hmem])]
        unfold bumpAcks
        rw [lookupKey_updateKey_ne hk]
      · rw [if_neg hmem, if_neg (by simp [hk, hmem])]
        unfold bumpAcks
        rw [lookupKey_updateKey_ne hk]

theorem foldl_bumpAcks_mem :
    ∀ (dl : List (Nat × message)) (store : List (Nat × Message)) (q : Nat × Message),
      q ∈ dl.foldl (fun st p => bumpAcks p.1 st) store →
      ∃ q0 ∈ store, q.1 = q0.1 ∧ q.2.publishTime = q0.2.publishTime := by
  intro dl
  induction dl with
  | nil =>
    intro store q hq
    exact ⟨q, hq, rfl, rfl⟩
  | cons hd tl ih =>
    intro store q hq
    obtain ⟨q1, hq1, hk, hpt⟩ := ih (bumpAcks hd.1 store) q hq
    unfold bumpAcks at hq1
    rcases mem_updateKey hq1 with ⟨q0, hq0, hk0, heq⟩ | ⟨hq0, _⟩
    · refine ⟨q0, hq0, ?_, ?_⟩
      · rw [hk, heq]
        exact hk0.symm
      · rw [hpt, heq]
    · exact ⟨q1, hq0, hk, hpt⟩

theorem subscriptionPull_empty (now : Int) (maxN : Nat)
    (store : List (Nat × Message)) (sb : Subscription) (h : sb.msgs = []) :
    subscriptionPull now maxN store sb = .ok (store, { sb with msgs := [] }, []) := by
  unfold subscriptionPull subscriptionMaintainMessages
  rw [h]
  rfl

theorem pull_on_empty (s : GServer) (name : String) (sub : Subscription)
    (now maxM : Int) (ri : Bool)
    (hname : name ≠ "") (hsub : lookupKey name s.subs = some sub)
    (hmz : 0 ≤ maxM) (hempty : sub.msgs = []) :
    (s.Pull now ⟨name, maxM, ri⟩).2 = .ok [] := by
  unfold GServer.Pull
  rw [findSubscription_ok hname hsub]
  simp only
  rw [if_neg (show ¬ maxM < 0 by omega)]
  rw [subscriptionPull_empty now _ s.msgsByID sub hempty]
  dsimp only
  by_cases hri : ri
  · rw [if_neg (by simp [hri])]
  · rw [if_pos (by simp [hri])]
    rw [subscriptionPull_empty _ _ _ _
      (show ({ sub with msgs := [] } : Subscription).msgs = [] from rfl)]

/-! ## C5: Seek by time -/

/-- C5: for a `Seek` with a time target on an existing subscription, every
pending message published before the target is removed from the pending set
with its ack counter incremented; every historical message published at or
after the target ends up in the pending set as a fresh `Available` entry
(in particular every one that was not already pending is reinserted); and a
Seek to a time after all existing publishes leaves the subscription with no
pending messages, after which a Pull returns no messages. -/
theorem c5_seek_semantics (s : GServer) (req : SeekRequest) (T : Int)
    (sub : Subscription)
    (htgt : req.target = some (.time T))
    (hname : req.subscription ≠ "")
    (hsub : lookupKey req.subscription s.subs = some sub)
    (hnodup : (sub.msgs.map Prod.fst).Nodup)
    (hcoh : ∀ p ∈ sub.msgs, ∀ mm, lookupKey p.1 s.msgsByID = some mm →
      mm.publishTime = p.2.publishTime) :
    (s.Seek req).2 = .ok () ∧
    ∃ sub', lookupKey req.subscription (s.Seek req).1.subs = some sub' ∧
      (∀ p ∈ sub.msgs, p.2.publishTime < T →
        (∀ q ∈ sub'.msgs, q.1 ≠ p.1) ∧
        lookupKey p.1 (s.Seek req).1.msgsByID =
          (lookupKey p.1 s.msgsByID).map
            (fun mm => { mm with acks := mm.acks + 1 })) ∧
      (∀ mid m, mid ∈ s.msgs →
        lookupKey mid (s.Seek req).1.msgsByID = some m →
        ¬ m.publishTime < T →
        lookupKey mid sub'.msgs = some (freshSeekEntry mid m.publishTime)) ∧
      ((∀ q ∈ s.msgsByID, q.2.publishTime < T) →
        (∀ p ∈ sub.msgs, p.2.publishTime < T) →
        sub'.msgs = [] ∧
        (∀ (now maxM : Int) (ri : Bool), 0 ≤ maxM →
          ((s.Seek req).1.Pull now ⟨req.subscription, maxM, ri⟩).2 = .ok [])) := by
  have hdnd : ((seekDropped T sub).map Prod.fst).Nodup :=
    List.Nodup.sublist (List.Sublist.map Prod.fst (List.filter_sublist _)) hnodup
  have hres : s.Seek req = (seekResultState s req.subscription T sub, .ok ()) := by
    unfold GServer.Seek
    rw [htgt]
    dsimp only
    rw [findSubscription_ok hname hsub]
    rfl
  have hstore : ∀ k : Nat, lookupKey k (seekStore s T sub) =
      if k ∈ (seekDropped T sub).map Prod.fst
      then (lookupKey k s.msgsByID).map (fun mm => { mm with acks := mm.acks + 1 })
      else lookupKey k s.msgsByID :=
    fun k => foldl_bumpAcks_lookup _ s.msgsByID k hdnd
  have hsublook : lookupKey req.subscription (s.Seek req).1.subs =
      some (seekNewSub s T sub) := by
    rw [hres]
    exact lookupKey_insertKey_self
  have hstatestore : (s.Seek req).1.msgsByID = seekStore s T sub := by
    rw [hres]
    rfl
  refine ⟨by rw [hres], seekNewSub s T sub, hsublook, ?_, ?_, ?_⟩
  · intro p hp hlt
    have hpd : p ∈ seekDropped T sub :=
      List.mem_filter.mpr ⟨hp, by simpa using hlt⟩
    have hpk : p.1 ∈ (seekDropped T sub).map Prod.fst :=
      List.mem_map.mpr ⟨p, hpd, rfl⟩
    constructor
    · intro q hq hqe
      rcases seekReinsert_mem T (seekStore s T sub) s.msgs _ q hq with
        ⟨m, hm, hmq, _⟩ | hq'
      · rw [hqe, hstore p.1, if_pos hpk] at hm
        cases hmm : lookupKey p.1 s.msgsByID with
        | none =>
          rw [hmm] at hm
          simp at hm
        | some mm =>
          rw [hmm] at hm
          simp at hm
          apply hmq
          rw [← hm]
          simp only
          rw [hcoh p hp mm hmm]
          exact hlt
      · have hqmem : q ∈ sub.msgs := (List.mem_filter.mp hq').1
        have : q = p := mem_eq_of_nodup_keys hnodup hqmem hp hqe
        subst this
        have := (List.mem_filter.mp hq').2
        simp at this
        omega
    · rw [hstatestore, hstore p.1, if_pos hpk]
  · intro mid m hmid hm hq
    rw [hstatestore] at hm
    exact seekReinsert_lookup T (seekStore s T sub) mid m hm hq s.msgs _
      (Or.inl hmid)
  · intro hall hallp
    have hkept : seekKept T sub = [] := by
      unfold seekKept
      rw [List.filter_eq_nil_iff]
      intro p hp
      simp
      exact hallp p hp
    have hstoreall : ∀ q ∈ seekStore s T sub, q.2.publishTime < T := by
      intro q hq
      obtain ⟨q0, hq0, _, hpt⟩ := foldl_bumpAcks_mem _ s.msgsByID q hq
      rw [hpt]
      exact hall q0 hq0
    have hempty : (seekNewSub s T sub).msgs = [] := by
      rw [List.eq_nil_iff_forall_not_mem]
      intro q hq
      unfold seekNewSub at hq
      rcases seekReinsert_mem T (seekStore s T sub) s.msgs _ q hq with
        ⟨m, hm, hmq, _⟩ | hq'
      · exact hmq (hstoreall (q.1, m) (lookupKey_mem hm))
      · rw [show ({ sub with msgs := seekKept T sub } : Subscription).msgs =
          seekKept T sub from rfl, hkept] at hq'
        simp at hq'
    refine ⟨hempty, ?_⟩
    intro now maxM ri hmz
    exact pull_on_empty (s.Seek req).1 req.subscription (seekNewSub s T sub)
      now maxM ri hname hsublook hmz hempty

/-- Witness for C5 at `stPublished` with target 10 s (after the only
publish): Seek succeeds, leaves the subscription with no pending messages,
increments the ack counter of the dropped message, and a subsequent Pull
returns no messages. -/
theorem c5_witness :
    (stPublished.Seek ⟨"s", some (.time (10 * nsPerSecond))⟩).2 = .ok () ∧
    (∃ sub', lookupKey "s"
        (stPublished.Seek ⟨"s", some (.time (10 * nsPerSecond))⟩).1.subs =
        some sub' ∧ sub'.msgs = []) ∧
    ((stPublished.Seek ⟨"s", some (.time (10 * nsPerSecond))⟩).1.Pull
      (11 * nsPerSecond) ⟨"s", 10, false⟩).2 = .ok [] := by
  have h := c5_seek_semantics stPublished ⟨"s", some (.time (10 * nsPerSecond))⟩
    (10 * nsPerSecond) stPublishedSub (by rfl) (by decide) (by rfl)
    (by decide) (by decide)
  obtain ⟨hok, sub', hlook, _, _, hd⟩ := h
  obtain ⟨hempty, hpull⟩ := hd (by decide) (by decide)
  exact ⟨hok, ⟨sub', hlook, hempty⟩, hpull (11 * nsPerSecond) 10 false (by norm_num)⟩

/-! ## Lemmas about Publish and the id counter -/

theorem publishOne_nextID (subNames : List String) (now : Int)
    (st : GServer × List Nat) (pm : PubsubMessage) :
    (publishOne subNames now st pm).1.nextID = st.1.nextID + 1 := rfl

theorem publishOne_ids (subNames : List String) (now : Int)
    (st : GServer × List Nat) (pm : PubsubMessage) :
    (publishOne subNames now st pm).2 = st.2 ++ [st.1.nextID] := rfl

theorem publish_foldl (subNames : List String) (now : Int) :
    ∀ (ms : List PubsubMessage) (s : GServer) (acc : List Nat),
      (ms.foldl (publishOne subNames now) (s, acc)).2 =
        acc ++ List.range' s.nextID ms.length ∧
      (ms.foldl (publishOne subNames now) (s, acc)).1.nextID =
        s.nextID + ms.length := by
  intro ms
  induction ms with
  | nil =>
    intro s acc
    simp
  | cons hd tl ih =>
    intro s acc
    show (tl.foldl (publishOne subNames now) (publishOne subNames now (s, acc) hd)).2 = _ ∧
      (tl.foldl (publishOne subNames now) (publishOne subNames now (s, acc) hd)).1.nextID = _
    have hstep : publishOne subNames now (s, acc) hd =
        ((publishOne subNames now (s, acc) hd).1, acc ++ [s.nextID]) := rfl
    rw [hstep]
    have ihh := ih (publishOne subNames now (s, acc) hd).1 (acc ++ [s.nextID])
    have hnid : (publishOne subNames now (s, acc) hd).1.nextID = s.nextID + 1 := rfl
    constructor
    · rw [ihh.1, hnid, List.length_cons, List.range'_succ, List.append_assoc]
      rfl
    · rw [ihh.2, hnid, List.length_cons]
      omega

/-- Any successful `Publish` returns exactly the next `len` counter values
and advances the counter by `len`. -/
theorem publish_ok_shape (s : GServer) (now : Int) (req : PublishRequest)
    (ids : List Nat) (hok : (s.Publish now req).2 = .ok ids) :
    ids = List.range' s.nextID req.messages.length ∧
    (s.Publish now req).1.nextID = s.nextID + req.messages.length := by
  unfold GServer.Publish at hok ⊢
  by_cases ht : req.topic = ""
  · rw [if_pos ht] at hok
    simp at hok
  · rw [if_neg ht] at hok ⊢
    cases htop : lookupKey req.topic s.topics with
    | none =>
      rw [htop] at hok
      simp at hok
    | some top =>
      rw [htop] at hok
      dsimp only at hok ⊢
      have h := publish_foldl top.subs now req.messages s []
      rcases hfold : req.messages.foldl (publishOne top.subs now) (s, []) with ⟨s', ids'⟩
      rw [hfold] at hok h
      simp at hok h ⊢
      constructor
      · rw [← hok, h.1]
      · exact h.2

/-- A publish that fails leaves the state unchanged. -/
theorem publish_err_state (s : GServer) (now : Int) (req : PublishRequest)
    (hnok : ∀ ids, (s.Publish now req).2 ≠ .ok ids) :
    (s.Publish now req).1 = s := by
  unfold GServer.Publish at hnok ⊢
  by_cases ht : req.topic = ""
  · rw [if_pos ht]
  · rw [if_neg ht] at hnok ⊢
    cases htop : lookupKey req.topic s.topics with
    | none => rfl
    | some top =>
      rw [htop] at hnok
      dsimp only at hnok
      exfalso
      rcases hfold : req.messages.foldl (publishOne top.subs now) (s, []) with ⟨s', ids'⟩
      rw [hfold] at hnok
      exact hnok ids' rfl

theorem step_nextID_mono (s : GServer) (op : Op) :
    s.nextID ≤ (step s op).1.nextID := by
  cases op with
  | publish now req =>
    simp only [step]
    by_cases hok : ∃ ids, (s.Publish now req).2 = .ok ids
    · obtain ⟨ids, hok⟩ := hok
      have := (publish_ok_shape s now req ids hok).2
      omega
    · push_neg at hok
      rw [publish_err_state s now req hok]
  | createTopic t =>
    simp only [step]
    unfold GServer.CreateTopic
    repeat' split
    all_goals exact le_refl _
  | updateTopic req =>
    simp only [step]
    unfold GServer.UpdateTopic
    repeat' split
    all_goals exact le_refl _
  | deleteTopic name =>
    simp only [step]
    unfold GServer.DeleteTopic
    repeat' split
    all_goals exact le_refl _
  | createSubscription minAck ps =>
    simp only [step]
    unfold GServer.CreateSubscription
    repeat' (first | split | dsimp only)
    all_goals exact le_refl _
  | updateSubscription minAck req =>
    simp only [step]
    unfold GServer.UpdateSubscription
    repeat' split
    all_goals exact le_refl _
  | deleteSubscription name =>
    simp only [step]
    unfold GServer.DeleteSubscription topicDeleteSub
    repeat' (first | split | dsimp only)
    all_goals exact le_refl _
  | detachSubscription name =>
    simp only [step]
    unfold GServer.DetachSubscription topicDeleteSub
    repeat' (first | split | dsimp only)
    all_goals exact le_refl _
  | acknowledge req =>
    simp only [step]
    unfold GServer.Acknowledge
    repeat' split
    all_goals exact le_refl _
  | modifyAckDeadline now wallNow req =>
    simp only [step]
    unfold GServer.ModifyAckDeadline
    repeat' split
    all_goals exact le_refl _
  | pull now req =>
    simp only [step]
    unfold GServer.Pull
    repeat' (first | split | dsimp only)
    all_goals exact le_refl _
  | seek req =>
    simp only [step]
    unfold GServer.Seek
    repeat' split
    all_goals exact le_refl _
  | deliverTick now name =>
    simp only [step]
    unfold GServer.deliverTick
    repeat' split
    all_goals exact le_refl _
  | streamRequest now name ackIds modIds =>
    simp only [step]
    unfold GServer.handleStreamingPullRequest
    repeat' split
    all_goals exact le_refl _

theorem stepPublished_err (op : Op) (st : Status) :
    stepPublished op (.err st) = [] := by
  cases op <;> rfl

theorem stepPublished_spec (s : GServer) (op : Op) (o : StepOut)
    (hout : (step s op).2 = .ok o) :
    stepPublished op (.ok o) = [] ∨
    ∃ l, stepPublished op (.ok o) = [l] ∧
      l = List.range' s.nextID l.length ∧
      (step s op).1.nextID = s.nextID + l.length := by
  cases op
  case publish now req =>
    simp only [step] at hout ⊢
    cases hpub : (s.Publish now req).2 with
    | ok ids =>
      rw [hpub] at hout
      simp only [Outcome.map] at hout
      have ho : o = .ids ids := by
        cases hout
        rfl
      subst ho
      right
      have h := publish_ok_shape s now req ids hpub
      have hlen : ids.length = req.messages.length := by
        rw [h.1]
        exact List.length_range' _ _ _
      refine ⟨ids, rfl, ?_, ?_⟩
      · rw [hlen]
        exact h.1
      · rw [hlen]
        exact h.2
    | err st =>
      rw [hpub] at hout
      simp [Outcome.map] at hout
    | nilPanic site =>
      rw [hpub] at hout
      simp [Outcome.map] at hout
  all_goals exact Or.inl rfl

theorem runState_nextID_mono :
    ∀ (ops : List Op) (s : GServer), s.nextID ≤ (runState s ops).nextID := by
  intro ops
  induction ops with
  | nil =>
    intro s
    exact le_refl _
  | cons op rest ih =>
    intro s
    show s.nextID ≤ (match (step s op).2 with
      | .nilPanic _ => (step s op).1
      | _ => runState (step s op).1 rest).nextID
    have h1 := step_nextID_mono s op
    have h2 := ih (step s op).1
    cases (step s op).2 <;> dsimp only <;> omega

theorem runPublished_sorted_aux :
    ∀ (ops : List Op) (s : GServer),
      ((runPublished s ops).flatten.Pairwise (· < ·)) ∧
      (∀ i ∈ (runPublished s ops).flatten,
        s.nextID ≤ i ∧ i < (runState s ops).nextID) := by
  intro ops
  induction ops with
  | nil =>
    intro s
    constructor
    · simp [runPublished]
    · intro i hi
      simp [runPublished] at hi
  | cons op rest ih =>
    intro s
    have hcons : runPublished s (op :: rest) =
        (match (step s op).2 with
          | .nilPanic _ => []
          | o => stepPublished op o ++ runPublished (step s op).1 rest) := rfl
    have hscons : runState s (op :: rest) =
        (match (step s op).2 with
          | .nilPanic _ => (step s op).1
          | _ => runState (step s op).1 rest) := rfl
    rw [hcons, hscons]
    have hmono := step_nextID_mono s op
    have ih1 := ih (step s op).1
    have hrmono := runState_nextID_mono rest (step s op).1
    cases hout : (step s op).2 with
    | nilPanic site =>
      dsimp only
      constructor
      · simp
      · intro i hi
        simp at hi
    | err st =>
      dsimp only
      rw [stepPublished_err]
      simp only [List.nil_append]
      constructor
      · exact ih1.1
      · intro i hi
        have := ih1.2 i hi
        omega
    | ok o =>
      dsimp only
      rcases stepPublished_spec s op o hout with hnil | ⟨l, hl, hrange, hnid⟩
      · rw [hnil]
        simp only [List.nil_append]
        constructor
        · exact ih1.1
        · intro i hi
          have := ih1.2 i hi
          omega
      · rw [hl]
        have hjoin : ([l] ++ runPublished (step s op).1 rest).flatten =
            l ++ (runPublished (step s op).1 rest).flatten := by
          simp
        rw [hjoin]
        have hbound : ∀ a ∈ l, s.nextID ≤ a ∧ a < (step s op).1.nextID := by
          intro a ha
          rw [hrange] at ha
          rw [List.mem_range'_1] at ha
          omega
        constructor
        · rw [List.pairwise_append]
          refine ⟨?_, ih1.1, ?_⟩
          · rw [hrange]
            exact List.pairwise_lt_range' _ _
          · intro a ha b hb
            have h1 := hbound a ha
            have h2 := (ih1.2 b hb).1
            omega
        · intro i hi
          rcases List.mem_append.mp hi with hi | hi
          · have := hbound i hi
            omega
          · have := ih1.2 i hi
            omega

/-! ## C1: publish ids come from the counter, strictly increasing -/

/-- C1: a `Publish` on an existing topic assigns the messages, in array
order, the next consecutive counter values (`List.range' s.nextID len`, so
the i-th message of the call gets id `nextID + i`) and advances the counter
by the batch length — hence ids within one call are strictly increasing in
array order; and along any operation trace on one broker instance the
concatenation of all successful `Publish` responses is strictly increasing
(in particular all assigned ids are unique). -/
theorem c1_publish_ids_strictly_increasing :
    (∀ (s : GServer) (now : Int) (req : PublishRequest) (top : Topic),
      req.topic ≠ "" → lookupKey req.topic s.topics = some top →
      (s.Publish now req).2 = .ok (List.range' s.nextID req.messages.length) ∧
      (List.range' s.nextID req.messages.length).length = req.messages.length ∧
      (List.range' s.nextID req.messages.length).Pairwise (· < ·) ∧
      (s.Publish now req).1.nextID = s.nextID + req.messages.length) ∧
    (∀ (s : GServer) (ops : List Op),
      (runPublished s ops).flatten.Pairwise (· < ·)) := by
  constructor
  · intro s now req top ht htop
    have hok : (s.Publish now req).2 =
        .ok (List.range' s.nextID req.messages.length) := by
      unfold GServer.Publish
      rw [if_neg ht, htop]
      dsimp only
      have h := publish_foldl top.subs now req.messages s []
      rcases hfold : req.messages.foldl (publishOne top.subs now) (s, []) with ⟨s', ids'⟩
      rw [hfold] at h
      simp at h ⊢
      exact h.1
    refine ⟨hok, List.length_range' _ _ _, List.pairwise_lt_range' _ _, ?_⟩
    exact (publish_ok_shape s now req _ hok).2
  · intro s ops
    exact (runPublished_sorted_aux ops s).1

/-- Witness for C1: publishing two messages to the existing topic `"t"`
returns ids 0 and 1 in order and advances the counter to 2. -/
theorem c1_witness :
    (stTopicSub.Publish 0 ⟨"t", [msgHello, msgHello]⟩).2 = .ok [0, 1] ∧
    ([0, 1] : List Nat).Pairwise (· < ·) ∧
    (stTopicSub.Publish 0 ⟨"t", [msgHello, msgHello]⟩).1.nextID = 2 := by
  have h := c1_publish_ids_strictly_increasing.1 stTopicSub 0
    ⟨"t", [msgHello, msgHello]⟩ ⟨topicT, ["s"]⟩ (by decide) (by rfl)
  exact ⟨h.1, by decide, h.2.2.2⟩

/-! ## C9: an acknowledged message is never pulled again

The development traces every pending entry a broker operation can leave
behind to its origin (`stepOrigin`), derives preservation of the key
invariants, and shows that once `subscription.ack` removes an id the only
way it can re-enter the pending set is a `Seek` reinsertion — whose entry
carries a nil proto `Message` and therefore makes every later `Pull` on the
subscription panic in `maintainMessages` instead of returning messages. -/

theorem findSubscription_ok_inv {s : GServer} {name : String}
    {sub : Subscription} (h : s.findSubscription name = .ok sub) :
    lookupKey name s.subs = some sub := by
  unfold GServer.findSubscription at h
  by_cases hn : name = ""
  · rw [if_pos hn] at h
    exact absurd h (by simp)
  · rw [if_neg hn] at h
    cases hl : lookupKey name s.subs with
    | none =>
      rw [hl] at h
      exact absurd h (by simp)
    | some sb =>
      rw [hl] at h
      injection h with h2
      rw [← h2]

theorem mem_bumpDeliveries (id : Nat) (store : List (Nat × Message)) :
    ∀ q ∈ bumpDeliveries id store, ∃ q0 ∈ store, q.1 = q0.1 := by
  intro q hq
  unfold bumpDeliveries at hq
  rcases mem_updateKey hq with ⟨q0, hq0, hk0, heq⟩ | ⟨hq0, _⟩
  · exact ⟨q0, hq0, by rw [heq]; exact hk0.symm⟩
  · exact ⟨q, hq0, rfl⟩

/-- Every pending entry surviving an `ack` fold was already pending. -/
theorem ackFold_entries :
    ∀ (ids : List Nat) (st : List (Nat × Message)) (sb : Subscription),
      ∀ p ∈ (ids.foldl subscriptionAck (st, sb)).2.msgs, p ∈ sb.msgs := by
  intro ids
  induction ids with
  | nil =>
    intro st sb p hp
    exact hp
  | cons id rest ih =>
    intro st sb p hp
    cases hl : lookupKey id sb.msgs with
    | none =>
      have hstep : subscriptionAck (st, sb) id = (st, sb) := by
        simp only [subscriptionAck, hl]
      rw [List.foldl_cons, hstep] at hp
      exact ih st sb p hp
    | some m =>
      have hstep : subscriptionAck (st, sb) id =
          (bumpAcks id st, { sb with msgs := eraseKey id sb.msgs }) := by
        simp only [subscriptionAck, hl]
      rw [List.foldl_cons, hstep] at hp
      exact (mem_eraseKey_iff.mp (ih _ _ p hp)).1

/-- The `ack` fold only bumps counters of already-stored records. -/
theorem ackFold_store :
    ∀ (ids : List Nat) (st : List (Nat × Message)) (sb : Subscription),
      ∀ q ∈ (ids.foldl subscriptionAck (st, sb)).1, ∃ q0 ∈ st, q.1 = q0.1 := by
  intro ids
  induction ids with
  | nil =>
    intro st sb q hq
    exact ⟨q, hq, rfl⟩
  | cons id rest ih =>
    intro st sb q hq
    cases hl : lookupKey id sb.msgs with
    | none =>
      have hstep : subscriptionAck (st, sb) id = (st, sb) := by
        simp only [subscriptionAck, hl]
      rw [List.foldl_cons, hstep] at hq
      exact ih st sb q hq
    | some m =>
      have hstep : subscriptionAck (st, sb) id =
          (bumpAcks id st, { sb with msgs := eraseKey id sb.msgs }) := by
        simp only [subscriptionAck, hl]
      rw [List.foldl_cons, hstep] at hq
      obtain ⟨q1, hq1, hk⟩ := ih _ _ q hq
      unfold bumpAcks at hq1
      rcases mem_updateKey hq1 with ⟨q0, hq0, hk0, heq⟩ | ⟨hq0, _⟩
      · refine ⟨q0, hq0, ?_⟩
        rw [hk, heq]
        exact hk0.symm
      · exact ⟨q1, hq0, hk⟩

/-- After an `ack` fold containing `id`, no pending entry keeps that id. -/
theorem ackFold_removes :
    ∀ (ids : List Nat) (st : List (Nat × Message)) (sb : Subscription) (id : Nat),
      id ∈ ids →
      ∀ p ∈ (ids.foldl subscriptionAck (st, sb)).2.msgs, p.1 ≠ id := by
  intro ids
  induction ids with
  | nil =>
    intro st sb id hid
    simp at hid
  | cons hd rest ih =>
    intro st sb id hid p hp
    by_cases hh : id ∈ rest
    · rw [List.foldl_cons] at hp
      exact ih (subscriptionAck (st, sb) hd).1 (subscriptionAck (st, sb) hd).2
        id hh p hp
    · have hhd : id = hd := by
        rcases List.mem_cons.mp hid with h | h
        · exact h
        · exact absurd h hh
      subst hhd
      cases hl : lookupKey id sb.msgs with
      | none =>
        have hnone : ∀ r ∈ sb.msgs, r.1 ≠ id := lookupKey_eq_none_iff.mp hl
        have hstep : subscriptionAck (st, sb) id = (st, sb) := by
          simp only [subscriptionAck, hl]
        rw [List.foldl_cons, hstep] at hp
        exact hnone p (ackFold_entries rest st sb p hp)
      | some m =>
        have hstep : subscriptionAck (st, sb) id =
            (bumpAcks id st, { sb with msgs := eraseKey id sb.msgs }) := by
          simp only [subscriptionAck, hl]
        rw [List.foldl_cons, hstep] at hp
        exact (mem_eraseKey_iff.mp (ackFold_entries rest _ _ p hp)).2

/-- `subscription.modifyAckDeadline` only relocates leases: every resulting
entry keeps the key and proto of an entry that was already pending. -/
theorem subscriptionModifyAckDeadline_entries (now : Int) (sb : Subscription)
    (id : Nat) (d : Int) :
    ∀ p ∈ (subscriptionModifyAckDeadline now sb id d).msgs,
      ∃ r ∈ sb.msgs, p.1 = r.1 ∧ p.2.proto = r.2.proto := by
  intro p hp
  unfold subscriptionModifyAckDeadline at hp
  cases hl : lookupKey id sb.msgs with
  | none =>
    rw [hl] at hp
    exact ⟨p, hp, rfl, rfl⟩
  | some m =>
    rw [hl] at hp
    dsimp only at hp
    by_cases hd : d = 0
    · rw [if_pos hd] at hp
      dsimp only at hp
      rcases mem_updateKey hp with ⟨r, hr, hk, heq⟩ | ⟨hr, _⟩
      · refine ⟨r, hr, ?_, ?_⟩
        · rw [heq]
          exact hk.symm
        · rw [heq]
          rfl
      · exact ⟨p, hr, rfl, rfl⟩
    · rw [if_neg hd] at hp
      dsimp only at hp
      rcases mem_updateKey hp with ⟨r, hr, hk, heq⟩ | ⟨hr, _⟩
      · refine ⟨r, hr, ?_, ?_⟩
        · rw [heq]
          exact hk.symm
        · rw [heq]
      · exact ⟨p, hr, rfl, rfl⟩

theorem modackFold_entries (now d : Int) :
    ∀ (ids : List Nat) (sb : Subscription),
      ∀ p ∈ (ids.foldl
          (fun sb id => subscriptionModifyAckDeadline now sb id d) sb).msgs,
        ∃ r ∈ sb.msgs, p.1 = r.1 ∧ p.2.proto = r.2.proto := by
  intro ids
  induction ids with
  | nil =>
    intro sb p hp
    exact ⟨p, hp, rfl, rfl⟩
  | cons id rest ih =>
    intro sb p hp
    rw [List.foldl_cons] at hp
    obtain ⟨r1, hr1, hk1, hp1⟩ := ih _ p hp
    obtain ⟨r, hr, hk, hpr⟩ :=
      subscriptionModifyAckDeadline_entries now sb id d r1 hr1
    exact ⟨r, hr, hk1.trans hk, hp1.trans hpr⟩

theorem modackFoldPair_entries (now : Int) :
    ∀ (mods : List (Nat × Int)) (sb : Subscription),
      ∀ p ∈ (mods.foldl
          (fun sb q => subscriptionModifyAckDeadline now sb q.1 (secsToDur q.2))
          sb).msgs,
        ∃ r ∈ sb.msgs, p.1 = r.1 ∧ p.2.proto = r.2.proto := by
  intro mods
  induction mods with
  | nil =>
    intro sb p hp
    exact ⟨p, hp, rfl, rfl⟩
  | cons md rest ih =>
    intro sb p hp
    rw [List.foldl_cons] at hp
    obtain ⟨r1, hr1, hk1, hp1⟩ := ih _ p hp
    obtain ⟨r, hr, hk, hpr⟩ :=
      subscriptionModifyAckDeadline_entries now sb md.1 (secsToDur md.2) r1 hr1
    exact ⟨r, hr, hk1.trans hk, hp1.trans hpr⟩

/-- The audit loop of `ModifyAckDeadline` only rewrites stored records. -/
theorem recordModacks_store (wallNow ads : Int) :
    ∀ (ids : List Nat) (store : List (Nat × Message)),
      ∀ q ∈ (recordModacks wallNow ads ids store).1,
        ∃ q0 ∈ store, q.1 = q0.1 := by
  intro ids
  induction ids with
  | nil =>
    intro store q hq
    exact ⟨q, hq, rfl⟩
  | cons id rest ih =>
    intro store q hq
    unfold recordModacks at hq
    cases hl : lookupKey id store with
    | none =>
      rw [hl] at hq
      exact ⟨q, hq, rfl⟩
    | some m =>
      rw [hl] at hq
      dsimp only at hq
      obtain ⟨q1, hq1, hk⟩ := ih _ q hq
      rcases mem_insertKey hq1 with heq | ⟨hq0, _⟩
      · refine ⟨(id, m), lookupKey_mem hl, ?_⟩
        rw [hk, heq]
      · exact ⟨q1, hq0, hk⟩

/-- A maintenance pass that returns without panicking saw only non-nil
protos, and every surviving entry is the demotion of an entry it read. -/
theorem maintainLoop_ok_facts (now : Int) :
    ∀ (l l' : List (Nat × message)), maintainLoop now l = .ok l' →
      (∀ r ∈ l, r.2.proto.message.isSome = true) ∧
      (∀ p ∈ l', ∃ r ∈ l, p.1 = r.1 ∧ p.2 = demote now r.2) := by
  intro l
  induction l with
  | nil =>
    intro l' h
    have h2 : (Outcome.ok [] : Outcome (List (Nat × message))) = .ok l' := h
    cases h2
    exact ⟨fun r hr => absurd hr (List.not_mem_nil r),
           fun p hp => absurd hp (List.not_mem_nil p)⟩
  | cons hd rest ih =>
    intro l' h
    obtain ⟨id, m0⟩ := hd
    simp only [maintainLoop] at h
    cases hpm : (demote now m0).proto.message with
    | none =>
      rw [hpm] at h
      exact absurd h (by simp)
    | some pm =>
      rw [hpm] at h
      cases hrec : maintainLoop now rest with
      | nilPanic site =>
        rw [hrec] at h
        exact absurd h (by simp)
      | err st =>
        rw [hrec] at h
        exact absurd h (by simp)
      | ok rest' =>
        rw [hrec] at h
        dsimp only at h
        obtain ⟨hsome, htr⟩ := ih rest' hrec
        refine ⟨?_, ?_⟩
        · intro r hr
          rcases List.mem_cons.mp hr with heq | hr'
          · have hdp := demote_proto now m0
            rw [hdp] at hpm
            rw [heq]
            simp [hpm]
          · exact hsome r hr'
        · split at h
          · cases h
            intro p hp
            obtain ⟨r, hr, hk, hd2⟩ := htr p hp
            exact ⟨r, List.mem_cons_of_mem _ hr, hk, hd2⟩
          · cases h
            intro p hp
            rcases List.mem_cons.mp hp with heq | hp'
            · rw [heq]
              exact ⟨(id, m0), List.mem_cons_self _ _, rfl, rfl⟩
            · obtain ⟨r, hr, hk, hd2⟩ := htr p hp'
              exact ⟨r, List.mem_cons_of_mem _ hr, hk, hd2⟩

/-- The collection loop of `pull`: every returned proto and every surviving
entry comes from the pending list it walked, and the store keeps its keys. -/
theorem pullLoop_facts (now ackT : Int) :
    ∀ (l : List (Nat × message)) (maxN : Nat) (store : List (Nat × Message)),
      (∀ rm ∈ (pullLoop now ackT maxN store l).2.2, ∃ r ∈ l, rm = r.2.proto) ∧
      (∀ p ∈ (pullLoop now ackT maxN store l).2.1,
        ∃ r ∈ l, p.1 = r.1 ∧ p.2.proto = r.2.proto) ∧
      (∀ q ∈ (pullLoop now ackT maxN store l).1, ∃ q0 ∈ store, q.1 = q0.1) := by
  intro l
  induction l with
  | nil =>
    intro maxN store
    exact ⟨fun rm hrm => absurd hrm (List.not_mem_nil rm),
           fun p hp => absurd hp (List.not_mem_nil p),
           fun q hq => ⟨q, hq, rfl⟩⟩
  | cons hd rest ih =>
    intro maxN store
    obtain ⟨id, m⟩ := hd
    by_cases hout : m.outstanding = true
    · have hstep : pullLoop now ackT maxN store ((id, m) :: rest) =
          ((pullLoop now ackT maxN store rest).1,
           (id, m) :: (pullLoop now ackT maxN store rest).2.1,
           (pullLoop now ackT maxN store rest).2.2) := by
        simp only [pullLoop, hout, if_true]
      obtain ⟨ihOut, ihMsgs, ihStore⟩ := ih maxN store
      rw [hstep]
      refine ⟨?_, ?_, ?_⟩
      · intro rm hrm
        obtain ⟨r, hr, hrm'⟩ := ihOut rm hrm
        exact ⟨r, List.mem_cons_of_mem _ hr, hrm'⟩
      · intro p hp
        rcases List.mem_cons.mp hp with heq | hp'
        · rw [heq]
          exact ⟨(id, m), List.mem_cons_self _ _, rfl, rfl⟩
        · obtain ⟨r, hr, hk, hpr⟩ := ihMsgs p hp'
          exact ⟨r, List.mem_cons_of_mem _ hr, hk, hpr⟩
      · exact ihStore
    · have hout' : ¬ (m.outstanding = true) := hout
      by_cases hmax : maxN ≤ 1
      · have hstep : pullLoop now ackT maxN store ((id, m) :: rest) =
            (bumpDeliveries id store,
             (id, { m with ackDeadline := some (now + ackT) }) :: rest,
             [({ m with ackDeadline := some (now + ackT) } : message).proto]) := by
          simp only [pullLoop, if_neg hout', if_pos hmax]
        rw [hstep]
        refine ⟨?_, ?_, ?_⟩
        · intro rm hrm
          rcases List.mem_singleton.mp hrm with heq
          rw [heq]
          exact ⟨(id, m), List.mem_cons_self _ _, rfl⟩
        · intro p hp
          rcases List.mem_cons.mp hp with heq | hp'
          · rw [heq]
            exact ⟨(id, m), List.mem_cons_self _ _, rfl, rfl⟩
          · exact ⟨p, List.mem_cons_of_mem _ hp', rfl, rfl⟩
        · exact mem_bumpDeliveries id store
      · have hstep : pullLoop now ackT maxN store ((id, m) :: rest) =
            ((pullLoop now ackT (maxN - 1) (bumpDeliveries id store) rest).1,
             (id, { m with ackDeadline := some (now + ackT) }) ::
               (pullLoop now ackT (maxN - 1) (bumpDeliveries id store) rest).2.1,
             ({ m with ackDeadline := some (now + ackT) } : message).proto ::
               (pullLoop now ackT (maxN - 1) (bumpDeliveries id store) rest).2.2) := by
          simp only [pullLoop, if_neg hout', if_neg hmax]
        obtain ⟨ihOut, ihMsgs, ihStore⟩ := ih (maxN - 1) (bumpDeliveries id store)
        rw [hstep]
        refine ⟨?_, ?_, ?_⟩
        · intro rm hrm
          rcases List.mem_cons.mp hrm with heq | hrm'
          · rw [heq]
            exact ⟨(id, m), List.mem_cons_self _ _, rfl⟩
          · obtain ⟨r, hr, hrm''⟩ := ihOut rm hrm'
            exact ⟨r, List.mem_cons_of_mem _ hr, hrm''⟩
        · intro p hp
          rcases List.mem_cons.mp hp with heq | hp'
          · rw [heq]
            exact ⟨(id, m), List.mem_cons_self _ _, rfl, rfl⟩
          · obtain ⟨r, hr, hk, hpr⟩ := ihMsgs p hp'
            exact ⟨r, List.mem_cons_of_mem _ hr, hk, hpr⟩
        · intro q hq
          obtain ⟨q1, hq1, hk⟩ := ihStore q hq
          obtain ⟨q0, hq0, hk0⟩ := mem_bumpDeliveries id store q1 hq1
          exact ⟨q0, hq0, hk.trans hk0⟩

/-- A `subscription.pull` that returns traces its output protos and its
surviving entries to entries that were pending before the call (with the
proto intact and non-nil), and keeps the store's keys. -/
theorem subscriptionPull_facts (now : Int) (maxN : Nat)
    (store : List (Nat × Message)) (sb : Subscription)
    (res : List (Nat × Message) × Subscription × List ReceivedMessage)
    (h : subscriptionPull now maxN store sb = .ok res) :
    (∀ rm ∈ res.2.2, ∃ r ∈ sb.msgs,
      rm = r.2.proto ∧ r.2.proto.message.isSome = true) ∧
    (∀ p ∈ res.2.1.msgs, ∃ r ∈ sb.msgs, p.1 = r.1 ∧ p.2.proto = r.2.proto) ∧
    (∀ q ∈ res.1, ∃ q0 ∈ store, q.1 = q0.1) := by
  unfold subscriptionPull subscriptionMaintainMessages at h
  cases hml : maintainLoop now sb.msgs with
  | nilPanic site =>
    rw [hml] at h
    exact absurd h (by simp)
  | err st =>
    rw [hml] at h
    exact absurd h (by simp)
  | ok msgs1 =>
    rw [hml] at h
    dsimp only at h
    obtain ⟨hsome, htr⟩ := maintainLoop_ok_facts now sb.msgs msgs1 hml
    obtain ⟨plOut, plMsgs, plStore⟩ := pullLoop_facts now sb.ackTimeout msgs1 maxN store
    rcases hpl : pullLoop now sb.ackTimeout maxN store msgs1 with ⟨st1, msgs2, out1⟩
    rw [hpl] at h plOut plMsgs plStore
    dsimp only at h plOut plMsgs plStore
    cases h
    refine ⟨?_, ?_, ?_⟩
    · intro rm hrm
      obtain ⟨r1, hr1, hrm1⟩ := plOut rm hrm
      obtain ⟨r, hr, hk, hdem⟩ := htr r1 hr1
      refine ⟨r, hr, ?_, hsome r hr⟩
      rw [hrm1, hdem, demote_proto]
    · intro p hp
      obtain ⟨r1, hr1, hk1, hp1⟩ := plMsgs p hp
      obtain ⟨r, hr, hk, hdem⟩ := htr r1 hr1
      refine ⟨r, hr, hk1.trans hk, ?_⟩
      rw [hp1, hdem, demote_proto]
    · exact plStore

theorem stepOrigin_refl (s : GServer) : stepOrigin s s := by
  refine ⟨fun q hq => Or.inl ⟨q, hq, rfl⟩, fun i hi => Or.inl hi,
    fun q hq p hp => ?_⟩
  exact Or.inr (Or.inr ⟨q, hq, rfl, p, hp, rfl, rfl⟩)

theorem stepOrigin_parts (s s' : GServer)
    (hst : ∀ q ∈ s'.msgsByID, ∃ q0 ∈ s.msgsByID, q.1 = q0.1)
    (hms : s'.msgs = s.msgs)
    (hsubs : ∀ q ∈ s'.subs, ∃ q0 ∈ s.subs, q0.1 = q.1 ∧ q.2.msgs = q0.2.msgs) :
    stepOrigin s s' := by
  refine ⟨fun q hq => Or.inl (hst q hq), fun i hi => Or.inl (hms ▸ hi),
    fun q hq p hp => ?_⟩
  obtain ⟨q0, hq0, hname, hmsgs⟩ := hsubs q hq
  exact Or.inr (Or.inr ⟨q0, hq0, hname, p, hmsgs ▸ hp, rfl, rfl⟩)

theorem stepOrigin_eqs (s s' : GServer)
    (hst : s'.msgsByID = s.msgsByID) (hms : s'.msgs = s.msgs)
    (hsubs : s'.subs = s.subs) : stepOrigin s s' :=
  stepOrigin_parts s s' (fun q hq => ⟨q, hst ▸ hq, rfl⟩) hms
    (fun q hq => ⟨q, hsubs ▸ hq, rfl, rfl⟩)

/-- The workhorse: an operation that rewrote one subscription in place by
`insertKey`, kept the publish log, and only rewrote stored records, has the
origin property as soon as the new entries of the rewritten subscription
either are nil-proto entries of stored ids or trace to the old entries. -/
theorem stepOrigin_insert (s s' : GServer) (nm : String)
    (sub0 sub' : Subscription)
    (hsub0 : lookupKey nm s.subs = some sub0)
    (hsubs : s'.subs = insertKey nm sub' s.subs)
    (hst : ∀ q ∈ s'.msgsByID, ∃ q0 ∈ s.msgsByID, q.1 = q0.1)
    (hms : s'.msgs = s.msgs)
    (htr : ∀ p ∈ sub'.msgs,
      (p.2.proto.ackId = p.1 ∧ p.2.proto.message = none ∧
        ∃ mm ∈ s.msgsByID, mm.1 = p.1) ∨
      ∃ r ∈ sub0.msgs, p.1 = r.1 ∧ p.2.proto = r.2.proto) :
    stepOrigin s s' := by
  refine ⟨fun q hq => Or.inl (hst q hq), fun i hi => Or.inl (hms ▸ hi),
    fun q hq p hp => ?_⟩
  rw [hsubs] at hq
  rcases mem_insertKey hq with heq | ⟨hq', _⟩
  · rw [heq] at hp
    dsimp only at hp
    rcases htr p hp with ⟨h1, h2, h3⟩ | ⟨r, hr, hk, hpr⟩
    · exact Or.inr (Or.inl ⟨h1, h2, h3⟩)
    · refine Or.inr (Or.inr ⟨(nm, sub0), lookupKey_mem hsub0, ?_, r, hr, hk, hpr⟩)
      rw [heq]
  · exact Or.inr (Or.inr ⟨q, hq', rfl, p, hp, rfl, rfl⟩)

/-- A brand-new subscription with no pending messages. -/
theorem stepOrigin_insertNew (s s' : GServer) (nm : String)
    (sub' : Subscription)
    (hsubs : s'.subs = insertKey nm sub' s.subs)
    (hempty : sub'.msgs = [])
    (hst : s'.msgsByID = s.msgsByID) (hms : s'.msgs = s.msgs) :
    stepOrigin s s' := by
  refine ⟨fun q hq => Or.inl ⟨q, hst ▸ hq, rfl⟩, fun i hi => Or.inl (hms ▸ hi),
    fun q hq p hp => ?_⟩
  rw [hsubs] at hq
  rcases mem_insertKey hq with heq | ⟨hq', _⟩
  · rw [heq] at hp
    dsimp only at hp
    rw [hempty] at hp
    exact absurd hp (List.not_mem_nil p)
  · exact Or.inr (Or.inr ⟨q, hq', rfl, p, hp, rfl, rfl⟩)

theorem stepOrigin_comp {s s1 s2 : GServer} (h01 : stepOrigin s s1)
    (h12 : stepOrigin s1 s2) (hn01 : s.nextID ≤ s1.nextID)
    (hn12 : s1.nextID ≤ s2.nextID) : stepOrigin s s2 := by
  obtain ⟨hst01, hms01, hsub01⟩ := h01
  obtain ⟨hst12, hms12, hsub12⟩ := h12
  refine ⟨?_, ?_, ?_⟩
  · intro q hq
    rcases hst12 q hq with ⟨q1, hq1, he⟩ | ⟨hge, hlt⟩
    · rcases hst01 q1 hq1 with ⟨q0, hq0, he0⟩ | ⟨hge, hlt⟩
      · exact Or.inl ⟨q0, hq0, he.trans he0⟩
      · refine Or.inr ⟨?_, ?_⟩ <;> omega
    · exact Or.inr ⟨le_trans hn01 hge, hlt⟩
  · intro i hi
    rcases hms12 i hi with hi1 | ⟨hge, hlt⟩
    · rcases hms01 i hi1 with hi0 | ⟨hge, hlt⟩
      · exact Or.inl hi0
      · exact Or.inr ⟨hge, lt_of_lt_of_le hlt hn12⟩
    · exact Or.inr ⟨le_trans hn01 hge, hlt⟩
  · intro q hq p hp
    rcases hsub12 q hq p hp with ⟨ha, hge, hlt⟩ |
      ⟨ha, hnone, mm, hmm, he⟩ | ⟨q1, hq1, hname, r1, hr1, hk1, hp1⟩
    · exact Or.inl ⟨ha, le_trans hn01 hge, hlt⟩
    · rcases hst01 mm hmm with ⟨mm0, hmm0, he0⟩ | ⟨hge, hlt⟩
      · exact Or.inr (Or.inl ⟨ha, hnone, mm0, hmm0, he0.symm.trans he⟩)
      · refine Or.inl ⟨ha, ?_, ?_⟩ <;> omega
    · rcases hsub01 q1 hq1 r1 hr1 with ⟨ha0, hge, hlt⟩ |
        ⟨ha0, hnone0, mm, hmm, he⟩ | ⟨q0, hq0, hname0, r0, hr0, hk0, hp0⟩
      · refine Or.inl ⟨?_, ?_, ?_⟩
        · rw [hp1, ha0, ← hk1]
        · omega
        · omega
      · refine Or.inr (Or.inl ⟨?_, ?_, mm, hmm, ?_⟩)
        · rw [hp1, ha0, ← hk1]
        · rw [hp1]
          exact hnone0
        · exact he.trans hk1.symm
      · exact Or.inr (Or.inr ⟨q0, hq0, hname0.trans hname, r0, hr0,
          hk1.trans hk0, hp1.trans hp0⟩)

theorem topicDeleteSub_parts (s : GServer) (sub : Subscription) :
    (topicDeleteSub s sub).subs = s.subs ∧
    (topicDeleteSub s sub).msgsByID = s.msgsByID ∧
    (topicDeleteSub s sub).msgs = s.msgs ∧
    (topicDeleteSub s sub).nextID = s.nextID := by
  unfold topicDeleteSub
  cases lookupKey sub.topicName s.topics with
  | none => exact ⟨rfl, rfl, rfl, rfl⟩
  | some t => exact ⟨rfl, rfl, rfl, rfl⟩

/-- `publishOne` has the origin property: the new store record, log entry and
pending entries all use the freshly assigned id. -/
theorem publishOne_stepOrigin (subNames : List String) (now : Int)
    (st : GServer × List Nat) (pm0 : PubsubMessage) :
    stepOrigin st.1 (publishOne subNames now st pm0).1 ∧
    (publishOne subNames now st pm0).1.nextID = st.1.nextID + 1 := by
  constructor
  · unfold stepOrigin
    simp only [publishOne]
    refine ⟨?_, ?_, ?_⟩
    · intro q hq
      rcases mem_insertKey hq with heq | ⟨hq', _⟩
      · rw [heq]
        exact Or.inr ⟨le_refl _, Nat.lt_succ_self _⟩
      · exact Or.inl ⟨q, hq', rfl⟩
    · intro i hi
      rcases List.mem_append.mp hi with h | h
      · exact Or.inl h
      · rw [List.mem_singleton.mp h]
        exact Or.inr ⟨le_refl _, Nat.lt_succ_self _⟩
    · intro q hq p hp
      unfold topicPublish at hq
      rcases List.mem_map.mp hq with ⟨q0, hq0, hfq⟩
      by_cases hmem : q0.1 ∈ subNames
      · rw [if_pos hmem] at hfq
        rw [← hfq] at hp
        dsimp only at hp
        rcases mem_insertKey hp with heq | ⟨hp', _⟩
        · rw [heq]
          exact Or.inl ⟨rfl, le_refl _, Nat.lt_succ_self _⟩
        · refine Or.inr (Or.inr ⟨q0, hq0, ?_, p, hp', rfl, rfl⟩)
          rw [← hfq]
      · rw [if_neg hmem] at hfq
        rw [← hfq] at hp
        exact Or.inr (Or.inr ⟨q0, hq0, by rw [← hfq], p, hp, rfl, rfl⟩)
  · rfl

theorem publishFold_stepOrigin (subNames : List String) (now : Int) :
    ∀ (ms : List PubsubMessage) (st : GServer × List Nat),
      stepOrigin st.1 (ms.foldl (publishOne subNames now) st).1 ∧
      st.1.nextID ≤ (ms.foldl (publishOne subNames now) st).1.nextID := by
  intro ms
  induction ms with
  | nil =>
    intro st
    exact ⟨stepOrigin_refl st.1, le_refl _⟩
  | cons pm rest ih =>
    intro st
    rw [List.foldl_cons]
    obtain ⟨h1, h2⟩ := publishOne_stepOrigin subNames now st pm
    obtain ⟨h3, h4⟩ := ih (publishOne subNames now st pm)
    exact ⟨stepOrigin_comp h1 h3 (by omega) h4, by omega⟩

/-- `GServer.Pull` has the origin property (both the single pull and the
long-poll retry only relocate leases and bump delivery counters). -/
theorem gpull_stepOrigin (s : GServer) (now : Int) (req : PullRequest) :
    stepOrigin s (s.Pull now req).1 := by
  unfold GServer.Pull
  cases hfs : s.findSubscription req.subscription with
  | error st => exact stepOrigin_refl s
  | ok sub =>
    dsimp only
    by_cases hneg : req.maxMessages < 0
    · rw [if_pos hneg]
      exact stepOrigin_refl s
    · rw [if_neg hneg]
      have hlook := findSubscription_ok_inv hfs
      generalize (if req.maxMessages = 0 then (1000 : Nat) else req.maxMessages.toNat) = maxN
      cases hsp : subscriptionPull now maxN s.msgsByID sub with
      | nilPanic site => exact stepOrigin_refl s
      | err st => exact stepOrigin_refl s
      | ok res =>
        obtain ⟨store1, res2⟩ := res
        obtain ⟨sub1, out1⟩ := res2
        dsimp only
        obtain ⟨_, hEnt, hSt⟩ :=
          subscriptionPull_facts now maxN s.msgsByID sub (store1, sub1, out1) hsp
        have h01 : stepOrigin s
            ⟨s.topics, insertKey req.subscription sub1 s.subs, store1, s.msgs, s.nextID⟩ :=
          stepOrigin_insert s _ req.subscription sub sub1 hlook rfl hSt rfl
            (fun p hp => Or.inr (hEnt p hp))
        split
        · cases hsp2 : subscriptionPull (now + 500 * nsPerMillisecond) maxN store1 sub1 with
          | nilPanic site => exact h01
          | err st => exact h01
          | ok res' =>
            obtain ⟨store2, res2'⟩ := res'
            obtain ⟨sub2, out2⟩ := res2'
            dsimp only
            obtain ⟨_, hEnt2, hSt2⟩ :=
              subscriptionPull_facts (now + 500 * nsPerMillisecond) maxN store1 sub1
                (store2, sub2, out2) hsp2
            refine stepOrigin_comp h01 ?_ (le_refl _) (le_refl _)
            exact stepOrigin_insert _ _ req.subscription sub1 sub2
              lookupKey_insertKey_self rfl hSt2 rfl
              (fun p hp => Or.inr (hEnt2 p hp))
        · exact h01

/-- Every broker operation has the entry-origin property. -/
theorem step_stepOrigin (s : GServer) (op : Op) : stepOrigin s (step s op).1 := by
  cases op with
  | createTopic t =>
    simp only [step]
    unfold GServer.CreateTopic
    cases lookupKey t.name s.topics with
    | some _ => exact stepOrigin_refl s
    | none => exact stepOrigin_eqs s _ rfl rfl rfl
  | updateTopic req =>
    simp only [step]
    unfold GServer.UpdateTopic
    cases lookupKey req.topic.name s.topics with
    | none => exact stepOrigin_refl s
    | some t =>
      dsimp only
      rcases applyTopicMask req.topic req.updateMaskPaths t.proto with ⟨tp, e⟩
      cases e with
      | some st => exact stepOrigin_eqs s _ rfl rfl rfl
      | none => exact stepOrigin_eqs s _ rfl rfl rfl
  | deleteTopic name =>
    simp only [step]
    unfold GServer.DeleteTopic
    cases htl : lookupKey name s.topics with
    | none => exact stepOrigin_refl s
    | some t =>
      refine stepOrigin_parts s _ (fun q hq => ⟨q, hq, rfl⟩) rfl ?_
      intro q hq
      dsimp only at hq
      unfold topicStop at hq
      rcases List.mem_map.mp hq with ⟨q0, hq0, hfq⟩
      by_cases hmem : q0.1 ∈ t.subs
      · rw [if_pos hmem] at hfq
        refine ⟨q0, hq0, ?_, ?_⟩
        · rw [← hfq]
        · rw [← hfq]
      · rw [if_neg hmem] at hfq
        exact ⟨q0, hq0, by rw [hfq], by rw [hfq]⟩
  | createSubscription minAck ps =>
    simp only [step]
    unfold GServer.CreateSubscription
    repeat' (first | split | dsimp only)
    all_goals first
      | exact stepOrigin_refl s
      | exact stepOrigin_insertNew s _ _ _ rfl rfl rfl rfl
  | updateSubscription minAck req =>
    simp only [step]
    unfold GServer.UpdateSubscription
    cases req.subscription with
    | none => exact stepOrigin_refl s
    | some rs =>
      dsimp only
      cases hfs : s.findSubscription rs.name with
      | error st => exact stepOrigin_refl s
      | ok sub =>
        dsimp only
        have hlook := findSubscription_ok_inv hfs
        rcases applySubMask minAck rs req.updateMaskPaths sub.proto with ⟨sp, e⟩
        cases e with
        | some st =>
          exact stepOrigin_insert s _ rs.name sub _ hlook rfl
            (fun q hq => ⟨q, hq, rfl⟩) rfl
            (fun p hp => Or.inr ⟨p, hp, rfl, rfl⟩)
        | none =>
          exact stepOrigin_insert s _ rs.name sub _ hlook rfl
            (fun q hq => ⟨q, hq, rfl⟩) rfl
            (fun p hp => Or.inr ⟨p, hp, rfl, rfl⟩)
  | deleteSubscription name =>
    simp only [step]
    unfold GServer.DeleteSubscription
    cases hfs : s.findSubscription name with
    | error st => exact stepOrigin_refl s
    | ok sub =>
      dsimp only
      obtain ⟨hsubs, hst, hms, _⟩ :=
        topicDeleteSub_parts { s with subs := eraseKey name s.subs } sub
      refine stepOrigin_parts s _ ?_ ?_ ?_
      · intro q hq
        rw [hst] at hq
        exact ⟨q, hq, rfl⟩
      · rw [hms]
      · intro q hq
        rw [hsubs] at hq
        exact ⟨q, (mem_eraseKey_iff.mp hq).1, rfl, rfl⟩
  | detachSubscription name =>
    simp only [step]
    unfold GServer.DetachSubscription
    cases hfs : s.findSubscription name with
    | error st => exact stepOrigin_refl s
    | ok sub =>
      obtain ⟨hsubs, hst, hms, _⟩ := topicDeleteSub_parts s sub
      exact stepOrigin_eqs s _ hst hms hsubs
  | publish now req =>
    simp only [step]
    unfold GServer.Publish
    by_cases ht : req.topic = ""
    · rw [if_pos ht]
      exact stepOrigin_refl s
    · rw [if_neg ht]
      cases htop : lookupKey req.topic s.topics with
      | none => exact stepOrigin_refl s
      | some top =>
        dsimp only
        have h := (publishFold_stepOrigin top.subs now req.messages (s, [])).1
        rcases hfold : req.messages.foldl (publishOne top.subs now) (s, []) with ⟨s', ids⟩
        rw [hfold] at h
        exact h
  | acknowledge req =>
    simp only [step]
    unfold GServer.Acknowledge
    cases hfs : s.findSubscription req.subscription with
    | error st => exact stepOrigin_refl s
    | ok sub =>
      dsimp only
      have hlook := findSubscription_ok_inv hfs
      rcases hfold : req.ackIds.foldl subscriptionAck (s.msgsByID, sub) with ⟨store, sub'⟩
      refine stepOrigin_insert s _ req.subscription sub sub' hlook rfl ?_ rfl ?_
      · intro q hq
        exact ackFold_store req.ackIds s.msgsByID sub q (by rw [hfold]; exact hq)
      · intro p hp
        exact Or.inr ⟨p,
          ackFold_entries req.ackIds s.msgsByID sub p (by rw [hfold]; exact hp), rfl, rfl⟩
  | modifyAckDeadline now wallNow req =>
    simp only [step]
    unfold GServer.ModifyAckDeadline
    cases hfs : s.findSubscription req.subscription with
    | error st => exact stepOrigin_refl s
    | ok sub =>
      dsimp only
      have hlook := findSubscription_ok_inv hfs
      rcases hrm : recordModacks wallNow req.ackDeadlineSeconds req.ackIds s.msgsByID with ⟨store, panicked⟩
      have hstore : ∀ q ∈ store, ∃ q0 ∈ s.msgsByID, q.1 = q0.1 := by
        intro q hq
        exact recordModacks_store wallNow req.ackDeadlineSeconds req.ackIds s.msgsByID q
          (by rw [hrm]; exact hq)
      dsimp only
      by_cases hb : panicked = true
      · rw [if_pos hb]
        exact stepOrigin_parts s _ hstore rfl (fun q hq => ⟨q, hq, rfl, rfl⟩)
      · rw [if_neg hb]
        refine stepOrigin_insert s _ req.subscription sub _ hlook rfl hstore rfl ?_
        intro p hp
        exact Or.inr (modackFold_entries now (secsToDur req.ackDeadlineSeconds)
          req.ackIds sub p hp)
  | pull now req =>
    exact gpull_stepOrigin s now req
  | seek req =>
    simp only [step]
    unfold GServer.Seek
    cases req.target with
    | none => exact stepOrigin_refl s
    | some tgt =>
      cases tgt with
      | snapshot name => exact stepOrigin_refl s
      | time target =>
        dsimp only
        cases hfs : s.findSubscription req.subscription with
        | error st => exact stepOrigin_refl s
        | ok sub =>
          dsimp only
          have hlook := findSubscription_ok_inv hfs
          refine stepOrigin_insert s _ req.subscription sub _ hlook rfl ?_ rfl ?_
          · intro q hq
            obtain ⟨q0, hq0, hk, _⟩ := foldl_bumpAcks_mem _ s.msgsByID q hq
            exact ⟨q0, hq0, hk⟩
          · intro p hp
            obtain ⟨pid, pe⟩ := p
            rcases seekReinsert_mem target _ s.msgs _ (pid, pe) hp with ⟨m, hm, hlt, heq⟩ | hkept
            · have h2 : pe = freshSeekEntry pid m.publishTime := congrArg Prod.snd heq
              obtain ⟨q0, hq0, hk, _⟩ :=
                foldl_bumpAcks_mem _ s.msgsByID (pid, m) (lookupKey_mem hm)
              refine Or.inl ⟨?_, ?_, q0, hq0, hk.symm⟩
              · show pe.proto.ackId = pid
                rw [h2]
                rfl
              · show pe.proto.message = none
                rw [h2]
                rfl
            · exact Or.inr ⟨(pid, pe), List.mem_of_mem_filter hkept, rfl, rfl⟩
  | deliverTick now name =>
    simp only [step]
    unfold GServer.deliverTick
    cases hls : lookupKey name s.subs with
    | none => exact stepOrigin_refl s
    | some sub =>
      dsimp only
      cases hmm : subscriptionMaintainMessages now sub with
      | nilPanic site => exact stepOrigin_refl s
      | err st => exact stepOrigin_refl s
      | ok sub' =>
        dsimp only
        refine stepOrigin_insert s _ name sub sub' hls rfl (fun q hq => ⟨q, hq, rfl⟩) rfl ?_
        intro p hp
        unfold subscriptionMaintainMessages at hmm
        cases hml : maintainLoop now sub.msgs with
        | nilPanic site =>
          rw [hml] at hmm
          exact absurd hmm (by simp)
        | err st =>
          rw [hml] at hmm
          exact absurd hmm (by simp)
        | ok msgs1 =>
          rw [hml] at hmm
          dsimp only at hmm
          cases hmm
          obtain ⟨_, htr⟩ := maintainLoop_ok_facts now sub.msgs msgs1 hml
          obtain ⟨r, hr, hk, hdem⟩ := htr p hp
          refine Or.inr ⟨r, hr, hk, ?_⟩
          rw [hdem, demote_proto]
  | streamRequest now name ackIds modIds =>
    simp only [step]
    unfold GServer.handleStreamingPullRequest
    cases hls : lookupKey name s.subs with
    | none => exact stepOrigin_refl s
    | some sub =>
      dsimp only
      rcases hfold : ackIds.foldl subscriptionAck (s.msgsByID, sub) with ⟨store, sub'⟩
      refine stepOrigin_insert s _ name sub _ hls rfl ?_ rfl ?_
      · intro q hq
        exact ackFold_store ackIds s.msgsByID sub q (by rw [hfold]; exact hq)
      · intro p hp
        obtain ⟨r1, hr1, hk1, hp1⟩ := modackFoldPair_entries now modIds sub' p hp
        exact Or.inr ⟨r1,
          ackFold_entries ackIds s.msgsByID sub r1 (by rw [hfold]; exact hr1), hk1, hp1⟩

/-- The messages a successful `Pull` returns are the protos of pending
entries (with non-nil proto `Message`) of the registered subscription as it
was before the call. -/
theorem gpull_out_origin (s : GServer) (now : Int) (req : PullRequest)
    (out : List ReceivedMessage) (hok : (s.Pull now req).2 = .ok out) :
    ∃ sub, lookupKey req.subscription s.subs = some sub ∧
      ∀ rm ∈ out, ∃ r ∈ sub.msgs,
        rm = r.2.proto ∧ r.2.proto.message.isSome = true := by
  unfold GServer.Pull at hok
  cases hfs : s.findSubscription req.subscription with
  | error st =>
    rw [hfs] at hok
    exact absurd hok (by simp)
  | ok sub =>
    rw [hfs] at hok
    dsimp only at hok
    by_cases hneg : req.maxMessages < 0
    · rw [if_pos hneg] at hok
      exact absurd hok (by simp)
    · rw [if_neg hneg] at hok
      have hlook := findSubscription_ok_inv hfs
      refine ⟨sub, hlook, ?_⟩
      revert hok
      generalize (if req.maxMessages = 0 then (1000 : Nat) else req.maxMessages.toNat) = maxN
      intro hok
      cases hsp : subscriptionPull now maxN s.msgsByID sub with
      | nilPanic site =>
        rw [hsp] at hok
        exact absurd hok (by simp)
      | err st =>
        rw [hsp] at hok
        exact absurd hok (by simp)
      | ok res =>
        obtain ⟨store1, res2⟩ := res
        obtain ⟨sub1, out1⟩ := res2
        rw [hsp] at hok
        dsimp only at hok
        obtain ⟨hOut1, hEnt1, _⟩ :=
          subscriptionPull_facts now maxN s.msgsByID sub (store1, sub1, out1) hsp
        split at hok
        · cases hsp2 : subscriptionPull (now + 500 * nsPerMillisecond) maxN store1 sub1 with
          | nilPanic site =>
            rw [hsp2] at hok
            exact absurd hok (by simp)
          | err st =>
            rw [hsp2] at hok
            exact absurd hok (by simp)
          | ok res' =>
            obtain ⟨store2, res2'⟩ := res'
            obtain ⟨sub2, out2⟩ := res2'
            rw [hsp2] at hok
            dsimp only at hok
            cases hok
            obtain ⟨hOut2, _, _⟩ :=
              subscriptionPull_facts (now + 500 * nsPerMillisecond) maxN store1 sub1
                _ hsp2
            intro rm hrm
            obtain ⟨r1, hr1, hrm1, hsome1⟩ := hOut2 rm hrm
            obtain ⟨r, hr, hk, hpr⟩ := hEnt1 r1 hr1
            refine ⟨r, hr, ?_, ?_⟩
            · rw [hrm1, hpr]
            · rw [← hpr]
              exact hsome1
        · cases hok
          intro rm hrm
          exact hOut1 rm hrm

theorem step_entryAckKey (s : GServer) (op : Op) (hA : entryAckKey s) :
    entryAckKey (step s op).1 := by
  have hO := step_stepOrigin s op
  intro q hq p hp
  rcases hO.2.2 q hq p hp with ⟨h1, _, _⟩ | ⟨h1, _, _⟩ |
    ⟨q0, hq0, _, r, hr, hkey, hproto⟩
  · exact h1
  · exact h1
  · rw [hproto, hA q0 hq0 r hr, hkey]

theorem step_keyBound (s : GServer) (op : Op) (hB : keyBound s) :
    keyBound (step s op).1 := by
  have hO := step_stepOrigin s op
  have hn := step_nextID_mono s op
  obtain ⟨hB1, hB2, hB3⟩ := hB
  refine ⟨?_, ?_, ?_⟩
  · intro q hq
    rcases hO.1 q hq with ⟨q0, hq0, he⟩ | ⟨_, hlt⟩
    · have := hB1 q0 hq0
      omega
    · exact hlt
  · intro i hi
    rcases hO.2.1 i hi with h | ⟨_, hlt⟩
    · have := hB2 i h
      omega
    · exact hlt
  · intro q hq p hp
    rcases hO.2.2 q hq p hp with ⟨_, _, hlt⟩ | ⟨_, _, mm, hmm, he⟩ |
      ⟨q0, hq0, _, r, hr, hkey, _⟩
    · exact hlt
    · have := hB1 mm hmm
      omega
    · have := hB3 q0 hq0 r hr
      omega

/-- Deadness is preserved by every operation: a fresh publish uses an id at
or above the counter (so not the dead one), a `Seek` reinsertion under the
dead id carries a nil proto, and traced entries keep their protos. -/
theorem step_deadIn (s : GServer) (op : Op) (name : String) (id : Nat)
    (hD : deadIn s name id) (hI : id < s.nextID) :
    deadIn (step s op).1 name id := by
  have hO := step_stepOrigin s op
  intro q hq hname p hp hpid
  rcases hO.2.2 q hq p hp with ⟨_, hge, _⟩ | ⟨_, hnone, _⟩ |
    ⟨q0, hq0, hq0name, r, hr, hkey, hproto⟩
  · exfalso
    omega
  · exact hnone
  · rw [hproto]
    exact hD q0 hq0 (hq0name.trans hname) r hr (hkey.symm.trans hpid)

theorem initial_entryAckKey : entryAckKey GServer.initial := by
  intro q hq
  simp [GServer.initial] at hq

theorem initial_keyBound : keyBound GServer.initial := by
  refine ⟨?_, ?_, ?_⟩ <;> intro x hx <;> simp [GServer.initial] at hx

theorem runState_inv :
    ∀ (ops : List Op) (s : GServer), entryAckKey s → keyBound s →
      entryAckKey (runState s ops) ∧ keyBound (runState s ops) := by
  intro ops
  induction ops with
  | nil =>
    intro s hA hB
    exact ⟨hA, hB⟩
  | cons op rest ih =>
    intro s hA hB
    simp only [runState]
    cases (step s op).2 <;> dsimp only
    · exact ih (step s op).1 (step_entryAckKey s op hA) (step_keyBound s op hB)
    · exact ih (step s op).1 (step_entryAckKey s op hA) (step_keyBound s op hB)
    · exact ⟨step_entryAckKey s op hA, step_keyBound s op hB⟩

theorem stepPulled_err (op : Op) (st : Status) : stepPulled op (.err st) = [] := by
  cases op <;> rfl

/-- Inversion of a successful `pull` step. -/
theorem step_pull_ok_inv {s : GServer} {now : Int} {preq : PullRequest}
    {o : StepOut} (h : (step s (.pull now preq)).2 = .ok o) :
    ∃ ms, o = .msgs ms ∧ (s.Pull now preq).2 = .ok ms := by
  simp only [step] at h
  cases hp : (s.Pull now preq).2 with
  | ok ms =>
    rw [hp] at h
    simp only [Outcome.map] at h
    cases h
    exact ⟨ms, rfl, rfl⟩
  | err st =>
    rw [hp] at h
    exact absurd h (by simp [Outcome.map])
  | nilPanic site =>
    rw [hp] at h
    exact absurd h (by simp [Outcome.map])

/-- Everything a trace's pulls ever returned has an ack id below the final
id counter. -/
theorem runPulls_out_lt :
    ∀ (ops : List Op) (s : GServer), entryAckKey s → keyBound s →
      ∀ pr ∈ runPulls s ops, ∀ rm ∈ pr.2, rm.ackId < (runState s ops).nextID := by
  intro ops
  induction ops with
  | nil =>
    intro s _ _ pr hpr
    simp [runPulls] at hpr
  | cons op rest ih =>
    intro s hA hB pr hpr rm hrm
    simp only [runPulls] at hpr
    simp only [runState]
    cases ho : (step s op).2 with
    | nilPanic site =>
      rw [ho] at hpr
      simp at hpr
    | ok o =>
      rw [ho] at hpr
      dsimp only at hpr ⊢
      rcases List.mem_cons.mp hpr with heq | htl
      · rw [heq] at hrm
        dsimp only at hrm
        cases op
        case pull now preq =>
          obtain ⟨ms, hms, hpull⟩ := step_pull_ok_inv ho
          subst hms
          have hrm' : rm ∈ ms := hrm
          obtain ⟨sub, hlk, hout⟩ := gpull_out_origin s now preq ms hpull
          obtain ⟨r, hr, hrme, _⟩ := hout rm hrm'
          have hack := hA (preq.subscription, sub) (lookupKey_mem hlk) r hr
          have hlt : r.1 < s.nextID :=
            hB.2.2 (preq.subscription, sub) (lookupKey_mem hlk) r hr
          have h1 := step_nextID_mono s (.pull now preq)
          have h2 := runState_nextID_mono rest (step s (.pull now preq)).1
          have hre : rm.ackId = r.1 := by rw [hrme, hack]
          omega
        all_goals exact absurd hrm (List.not_mem_nil rm)
      · exact ih (step s op).1 (step_entryAckKey s op hA) (step_keyBound s op hB)
          pr htl rm hrm
    | err st =>
      rw [ho] at hpr
      dsimp only at hpr ⊢
      rcases List.mem_cons.mp hpr with heq | htl
      · rw [heq] at hrm
        dsimp only at hrm
        rw [stepPulled_err] at hrm
        simp at hrm
      · exact ih (step s op).1 (step_entryAckKey s op hA) (step_keyBound s op hB)
          pr htl rm hrm

/-- Once an id is dead for a subscription (and below the counter), no pull
on that subscription anywhere in the rest of the trace returns it. -/
theorem runPulls_no_dead :
    ∀ (ops : List Op) (s : GServer) (name : String) (id : Nat),
      entryAckKey s → keyBound s → deadIn s name id → id < s.nextID →
      ∀ pr ∈ runPulls s ops, ∀ (now : Int) (preq : PullRequest),
        pr.1 = Op.pull now preq → preq.subscription = name →
        ∀ rm ∈ pr.2, rm.ackId ≠ id := by
  intro ops
  induction ops with
  | nil =>
    intro s name id _ _ _ _ pr hpr
    simp [runPulls] at hpr
  | cons op rest ih =>
    intro s name id hA hB hD hI pr hpr now preq hop hsub rm hrm
    simp only [runPulls] at hpr
    cases ho : (step s op).2 with
    | nilPanic site =>
      rw [ho] at hpr
      simp at hpr
    | ok o =>
      rw [ho] at hpr
      dsimp only at hpr
      rcases List.mem_cons.mp hpr with heq | htl
      · rw [heq] at hop hrm
        dsimp only at hop hrm
        subst hop
        obtain ⟨ms, hms, hpull⟩ := step_pull_ok_inv ho
        subst hms
        have hrm' : rm ∈ ms := hrm
        obtain ⟨sub, hlk, hout⟩ := gpull_out_origin s now preq ms hpull
        obtain ⟨r, hr, hrme, hsome⟩ := hout rm hrm'
        intro hcontra
        have hasub : (preq.subscription, sub) ∈ s.subs := lookupKey_mem hlk
        have hack := hA (preq.subscription, sub) hasub r hr
        have hrid : r.1 = id := by
          rw [← hack, ← hrme]
          exact hcontra
        have hdead := hD (preq.subscription, sub) hasub hsub r hr hrid
        rw [hdead] at hsome
        simp at hsome
      · exact ih (step s op).1 name id (step_entryAckKey s op hA)
          (step_keyBound s op hB) (step_deadIn s op name id hD hI)
          (lt_of_lt_of_le hI (step_nextID_mono s op)) pr htl now preq hop hsub rm hrm
    | err st =>
      rw [ho] at hpr
      dsimp only at hpr
      rcases List.mem_cons.mp hpr with heq | htl
      · rw [heq] at hrm
        dsimp only at hrm
        rw [stepPulled_err] at hrm
        simp at hrm
      · exact ih (step s op).1 name id (step_entryAckKey s op hA)
          (step_keyBound s op hB) (step_deadIn s op name id hD hI)
          (lt_of_lt_of_le hI (step_nextID_mono s op)) pr htl now preq hop hsub rm hrm

/-- A successful `Acknowledge` naming `id` leaves that id dead for the
subscription: its pending entry (if any) is removed, and no other entry of
that subscription carries the id. -/
theorem acknowledge_dead (s : GServer) (areq : AcknowledgeRequest) (id : Nat)
    (hin : id ∈ areq.ackIds)
    (hok : (step s (.acknowledge areq)).2 = .ok .unit) :
    deadIn (step s (.acknowledge areq)).1 areq.subscription id := by
  simp only [step] at hok ⊢
  unfold GServer.Acknowledge at hok ⊢
  cases hfs : s.findSubscription areq.subscription with
  | error st =>
    rw [hfs] at hok
    exact absurd hok (by simp [Outcome.map])
  | ok sub =>
    dsimp only
    rcases hfold : areq.ackIds.foldl subscriptionAck (s.msgsByID, sub) with ⟨store, sub'⟩
    intro q hq hname p hp hpid
    exfalso
    dsimp only at hq
    rcases mem_insertKey hq with heq | ⟨hq', hqne⟩
    · rw [heq] at hp
      dsimp only at hp
      exact ackFold_removes areq.ackIds s.msgsByID sub id hin p
        (by rw [hfold]; exact hp) hpid
    · exact hqne hname

/-- C9: for every trace from the fresh broker, if some `Pull` delivered a
message with ack id `id`, and a subsequent `Acknowledge` for a subscription
names `id` and succeeds, then no `Pull` on that same subscription anywhere
in the rest of the trace ever returns a message with that ack id again.
(Pending entries `Seek` may reinsert under an acked id carry a nil proto
`Message`, so a `Pull` that encounters one panics in `maintainMessages`
rather than returning it; a panic ends the trace.) -/
theorem c9_acked_never_redelivered
    (ops1 ops2 : List Op) (areq : AcknowledgeRequest) (id : Nat)
    (pr0 : Op × List ReceivedMessage) (rm0 : ReceivedMessage)
    (hdeliv : pr0 ∈ runPulls GServer.initial ops1)
    (hrm0 : rm0 ∈ pr0.2) (hid0 : rm0.ackId = id)
    (hin : id ∈ areq.ackIds)
    (hok : (step (runState GServer.initial ops1) (.acknowledge areq)).2 = .ok .unit) :
    ∀ pr ∈ runPulls (step (runState GServer.initial ops1) (.acknowledge areq)).1 ops2,
      ∀ (now : Int) (preq : PullRequest), pr.1 = Op.pull now preq →
        preq.subscription = areq.subscription →
        ∀ rm ∈ pr.2, rm.ackId ≠ id := by
  have hA0 := initial_entryAckKey
  have hB0 := initial_keyBound
  have hinv1 := runState_inv ops1 GServer.initial hA0 hB0
  have hlt1 : id < (runState GServer.initial ops1).nextID := by
    have := runPulls_out_lt ops1 GServer.initial hA0 hB0 pr0 hdeliv rm0 hrm0
    omega
  have hdead := acknowledge_dead (runState GServer.initial ops1) areq id hin hok
  have hA2 := step_entryAckKey (runState GServer.initial ops1) (.acknowledge areq) hinv1.1
  have hB2 := step_keyBound (runState GServer.initial ops1) (.acknowledge areq) hinv1.2
  have hlt2 : id < (step (runState GServer.initial ops1) (.acknowledge areq)).1.nextID :=
    lt_of_lt_of_le hlt1 (step_nextID_mono _ _)
  intro pr hpr now preq hop hsubn rm hrm
  exact runPulls_no_dead ops2 _ areq.subscription id hA2 hB2 hdead hlt2
    pr hpr now preq hop hsubn rm hrm

/-- C9 witness: in the concrete scenario two messages are published and both
are pulled; message 0 is acknowledged; after nacking message 1 the next pull
returns exactly message 1, and the theorem applied at this trace shows the
returned ack id is not the acknowledged id 0. -/
theorem c9_witness :
    runPulls c9Acked c9Ops2 =
      [(Op.modifyAckDeadline 2 2 ⟨"s", [1], 0⟩, []),
       (Op.pull 3 c9PullReq, [(⟨1, some ⟨[106], [], "", 1, some 0⟩⟩ : ReceivedMessage)])] ∧
    ∀ rm ∈ [(⟨1, some ⟨[106], [], "", 1, some 0⟩⟩ : ReceivedMessage)],
      rm.ackId ≠ 0 := by
  constructor
  · rfl
  · intro rm hrm
    exact c9_acked_never_redelivered c9Ops1 c9Ops2 c9AckReq 0
      (Op.pull 1 c9PullReq,
        [(⟨0, some ⟨[104, 105], [], "", 0, some 0⟩⟩ : ReceivedMessage),
         (⟨1, some ⟨[106], [], "", 1, some 0⟩⟩ : ReceivedMessage)])
      (⟨0, some ⟨[104, 105], [], "", 0, some 0⟩⟩ : ReceivedMessage)
      (by decide) (by decide) rfl (by decide) (by decide)
      (Op.pull 3 c9PullReq, [(⟨1, some ⟨[106], [], "", 1, some 0⟩⟩ : ReceivedMessage)])
      (by decide) 3 c9PullReq rfl rfl rm hrm

end PSTest
